import Mathlib

/-!
# PannerEssentials: the panning engine of `PluginProcessor.cpp`

A shallow embedding of `PanningProcessor` (gain laws, the breakpoint curve with its
lookup cursor, the text format and the curve mutators), followed by theorems about it.

Conventions of the embedding.

* `float` and `double` quantities are exact rationals (`ℚ`); the gain laws are written
  over an arbitrary field so that they can be read over `ℚ` and over `ℝ`. Rounding and
  overflow are outside the model. The text reader does return NaN and the infinities
  for the tokens that spell them; a curve that would hold such a number is outside the
  model, and `parseBreakpointText` then returns `none`.
* `std::sort` is a parameter `std : StdSort`: any rearrangement that is sorted by the
  comparator. The order of breakpoints with equal times after a sort is whatever the
  library makes it.
* `std::vector<Breakpoint>` is `List Breakpoint`; `size_t` indices are `Nat`.
* The private members of the class are the fields of `State`; a member function that
  mutates the object returns the new `State`.
* `juce::String` is `List Char` (`Text`).
-/

namespace PanningProcessor

/-! ## Gain laws -/

/-- The pair `struct PanGains { float left; float right; }`. -/
structure PanGains (α : Type) where
  left : α
  right : α

/-- Source `PanningProcessor::linearPan`: `position *= 0.5f; return {0.5f - position, 0.5f + position}`. -/
def linearPan {α : Type} [Field α] (position : α) : PanGains α :=
  let position := position * 0.5
  { left := 0.5 - position, right := 0.5 + position }

/-- Source `PanningProcessor::constantPowerPan`. The library constants
`MathConstants<float>::pi`, `MathConstants<float>::sqrt2` and the library functions
`std::sin`, `std::cos` are parameters. -/
def constantPowerPan {α : Type} [Field α] (pi sqrt2 : α) (sin cos : α → α)
    (position : α) : PanGains α :=
  let piOverFour := pi * 0.25
  let sqrt2Over2 := sqrt2 * 0.5
  let angle := position * piOverFour
  let sinAngle := sin angle
  let cosAngle := cos angle
  { left := sqrt2Over2 * (cosAngle - sinAngle), right := sqrt2Over2 * (cosAngle + sinAngle) }

/-! ## Data model -/

/-- The private `struct Breakpoint { double time; double value; }`. -/
structure Breakpoint where
  time : ℚ
  value : ℚ
deriving DecidableEq

/-- The private data members of `PanningProcessor` that the curve code touches. -/
structure State where
  breakpoints : List Breakpoint
  breakpointsLoaded : Bool
  currentTime : ℚ
  timeIncrement : ℚ
  currentBreakpointIndex : Nat
deriving DecidableEq

/-- The member initialisers of the class: empty curve, not loaded, cursor 0. -/
def initialState : State :=
  { breakpoints := [], breakpointsLoaded := false, currentTime := 0,
    timeIncrement := 0, currentBreakpointIndex := 0 }

/-- Library `juce::jmax (a, b)`: `a < b ? b : a`. -/
def jmax (a b : ℚ) : ℚ := if a < b then b else a

/-- Library `juce::jlimit (lower, upper, v)`:
`v < lower ? lower : (upper < v ? upper : v)`. -/
def jlimit (lowerLimit upperLimit valueToConstrain : ℚ) : ℚ :=
  if valueToConstrain < lowerLimit then lowerLimit
  else if upperLimit < valueToConstrain then upperLimit
  else valueToConstrain

/-- The data-model range of a breakpoint: `time ≥ 0` and `value ∈ [-1, 1]`. -/
def Breakpoint.InRange (b : Breakpoint) : Prop := 0 ≤ b.time ∧ -1 ≤ b.value ∧ b.value ≤ 1

instance (b : Breakpoint) : Decidable b.InRange :=
  inferInstanceAs (Decidable (0 ≤ b.time ∧ -1 ≤ b.value ∧ b.value ≤ 1))

/-! ## Sorting -/

/-- The comparator lambda of `sortBreakpoints`: `a.time < b.time`. -/
def timeLess (a b : Breakpoint) : Prop := a.time < b.time

instance : DecidableRel timeLess := fun a b => inferInstanceAs (Decidable (a.time < b.time))

/-- What `std::sort` with comparator `comp` establishes between an element and
every later one: `comp (later, earlier)` is false. -/
def timeOrdered (a b : Breakpoint) : Prop := ¬ timeLess b a

instance : DecidableRel timeOrdered := fun a b => inferInstanceAs (Decidable (¬ timeLess b a))

/-- The breakpoint sequence is sorted ascending (non-decreasing) by time. -/
def SortedByTime (bps : List Breakpoint) : Prop := bps.Sorted timeOrdered

instance (bps : List Breakpoint) : Decidable (SortedByTime bps) :=
  inferInstanceAs (Decidable (List.Pairwise timeOrdered bps))

instance : IsTotal Breakpoint timeOrdered :=
  ⟨fun a b => by
    unfold timeOrdered timeLess
    rcases le_total a.time b.time with h | h
    · exact Or.inl (not_lt.mpr h)
    · exact Or.inr (not_lt.mpr h)⟩

instance : IsTrans Breakpoint timeOrdered :=
  ⟨fun a b c hab hbc => by
    unfold timeOrdered timeLess at *
    exact not_lt.mpr (le_trans (not_lt.mp hab) (not_lt.mp hbc))⟩

/-- Library `std::sort (begin, end, comp)` with the comparator of `sortBreakpoints`, as
the C++ standard specifies it: the result is a rearrangement of the vector that is sorted
by the comparator. The relative order of elements with equal time is not specified, so
nothing is assumed about it. -/
structure StdSort where
  sort : List Breakpoint → List Breakpoint
  perm : ∀ bps, (sort bps).Perm bps
  sorted : ∀ bps, (sort bps).Sorted timeOrdered

/-- The effect of `std::sort (breakpoints.begin (), breakpoints.end (), comp)` on the
vector. -/
def sortVector (std : StdSort) (bps : List Breakpoint) : List Breakpoint :=
  std.sort bps

/-- Source `PanningProcessor::sortBreakpoints`. -/
def sortBreakpoints (std : StdSort) (s : State) : State :=
  { s with breakpoints := sortVector std s.breakpoints }

/-- One `std::sort` that meets the standard, for evaluation: up to 16 elements an
insertion sort that keeps elements of equal time in their order, and on longer vectors a
sort that leaves elements of equal time in reversed order. (The libstdc++ `std::sort` is
a plain insertion sort up to 16 elements and partitions longer vectors first, which
exchanges the two leading equal-time elements of an already sorted vector of 17.) -/
def sampleStdSort : StdSort :=
  { sort := fun bps =>
      if bps.length ≤ 16 then bps.insertionSort timeOrdered
      else bps.reverse.insertionSort timeOrdered,
    perm := fun bps => by
      by_cases h : bps.length ≤ 16
      · simp only [h, if_true]
        exact List.perm_insertionSort timeOrdered bps
      · simp only [h, if_false]
        exact (List.perm_insertionSort timeOrdered bps.reverse).trans (List.reverse_perm bps),
    sorted := fun bps => by
      by_cases h : bps.length ≤ 16
      · simp only [h, if_true]
        exact List.sorted_insertionSort timeOrdered bps
      · simp only [h, if_false]
        exact List.sorted_insertionSort timeOrdered bps.reverse }

/-! ## Lookup with the monotonic cursor -/

/-- The `while` loop of `getBreakpointValue`:
`while (idx + 1 < size && time > breakpoints[idx + 1].time) ++idx;`. -/
def advanceCursor (bps : List Breakpoint) (time : ℚ) (idx : Nat) : Nat :=
  if h : idx + 1 < bps.length then
    if time > bps[idx + 1].time then advanceCursor bps time (idx + 1) else idx
  else idx
termination_by bps.length - idx

/-- Source `PanningProcessor::getBreakpointValue`. Returns the value and the object
after the call (the cursor moves). Every vector read carries its bounds proof. -/
def getBreakpointValue (s : State) (time : ℚ) : ℚ × State :=
  if hsz : s.breakpoints.length < 2 then (0, s)
  else
    let idx := advanceCursor s.breakpoints time s.currentBreakpointIndex
    let s1 := { s with currentBreakpointIndex := idx }
    if h : idx ≥ s.breakpoints.length - 1 then
      ((s.breakpoints.getLast (List.ne_nil_of_length_pos (by omega))).value, s1)
    else
      let left := s.breakpoints[idx]
      let right := s.breakpoints[idx + 1]
      if right.time - left.time = 0 then (right.value, s1)
      else
        let fraction := (time - left.time) / (right.time - left.time)
        (left.value + (right.value - left.value) * fraction, s1)

/-- Source `PanningProcessor::prepareToPlay` (the smoothed live value is not part of
`State`). -/
def prepareToPlay (s : State) (sampleRate : ℚ) : State :=
  { s with timeIncrement := 1 / sampleRate, currentBreakpointIndex := 0 }

/-! ## Generators and interactive editing -/

/-- Source `PanningProcessor::generateSineCurve`; `points = 32`, the loop runs for
`i = 0 .. 32`. `MathConstants<float>::twoPi` and `std::sin` are parameters. -/
def generateSineCurve (std : StdSort) (twoPi : ℚ) (sin : ℚ → ℚ) (s : State)
    (duration amplitude frequency : ℚ) : State :=
  let points : Nat := 32
  let pushed := (List.range (points + 1)).map fun i =>
    let t := duration * (i : ℚ) / (points : ℚ)
    let value := amplitude * sin (twoPi * frequency * t)
    ({ time := t, value := jlimit (-1) 1 value } : Breakpoint)
  { sortBreakpoints std { s with breakpoints := pushed } with
    breakpointsLoaded := true, currentBreakpointIndex := 0 }

/-- Source `PanningProcessor::generateRampCurve`. -/
def generateRampCurve (s : State) (duration start endValue : ℚ) : State :=
  { s with
    breakpoints := [{ time := 0, value := start }, { time := duration, value := endValue }],
    breakpointsLoaded := true,
    currentBreakpointIndex := 0 }

/-- Source `PanningProcessor::generateRandomCurve`. `nextFloat k` is the `k`-th draw of
`juce::Random::getSystemRandom().nextFloat()`; `static_cast<int>` of a non-negative
product is its floor, and for a negative product the loop does not run. -/
def generateRandomCurve (std : StdSort) (nextFloat : Nat → ℚ) (s : State)
    (duration density : ℚ) : State :=
  let numPoints : Nat := (Int.floor (duration * density)).toNat
  let pushed := (List.range numPoints).map fun k =>
    let i : Nat := k + 1
    let t := duration * (i : ℚ) / (numPoints : ℚ)
    let value := nextFloat k * 2 - 1
    ({ time := t, value := value } : Breakpoint)
  { sortBreakpoints std { s with breakpoints := { time := 0, value := 0 } :: pushed } with
    breakpointsLoaded := true, currentBreakpointIndex := 0 }

/-- Source `PanningProcessor::updateBreakpoint`. -/
def updateBreakpoint (std : StdSort) (s : State) (index : Nat) (time value : ℚ) : State :=
  if index < s.breakpoints.length then
    sortBreakpoints std { s with
      breakpoints := s.breakpoints.set index
        { time := jmax 0 time, value := jlimit (-1) 1 value } }
  else s

/-- Source `PanningProcessor::addBreakpoint`. -/
def addBreakpoint (std : StdSort) (s : State) (time value : ℚ) : State :=
  { sortBreakpoints std { s with
      breakpoints := s.breakpoints ++ [{ time := jmax 0 time, value := jlimit (-1) 1 value }] } with
    breakpointsLoaded := true }

/-- Source `PanningProcessor::removeBreakpoint`. -/
def removeBreakpoint (s : State) (index : Nat) : State :=
  if index < s.breakpoints.length then
    { s with
      breakpoints := s.breakpoints.eraseIdx index,
      breakpointsLoaded := !(s.breakpoints.eraseIdx index).isEmpty,
      currentBreakpointIndex := 0 }
  else s

/-! ## The text format

`juce::String` values are lists of characters. The JUCE string helpers used by
`parseBreakpointText` and `getBreakpointText` are library code; they are modelled after
their documented behaviour. Finite numbers are read and printed exactly (no binary
rounding, no overflow); the tokens that spell NaN or an infinity are read as such. -/

/-- A `juce::String`. -/
abbrev Text := List Char

/-- Library `CharacterFunctions::isWhitespace`: space, tab, line feed, vertical tab,
form feed, carriage return. -/
def isWhitespace (c : Char) : Bool :=
  c = ' ' || c = '\t' || c = '\n' || c = Char.ofNat 11 || c = Char.ofNat 12 || c = '\r'

/-- The scanning loop of library `StringArray::addLines`: a line ends at `\n`, at `\r\n`,
at a lone `\r`, or at the end of the text. `line` is the line read so far. -/
def addLines (line : Text) : Text → List Text
  | [] => [line]
  | c :: rest =>
    if c = '\n' then line :: addLines [] rest
    else if c = '\r' then
      match rest with
      | [] => line :: addLines [] []
      | d :: rest2 =>
        if d = '\n' then line :: addLines [] rest2 else line :: addLines [] (d :: rest2)
    else addLines (line ++ [c]) rest

/-- Library `StringArray::fromLines`: no line at all for the empty text. -/
def fromLines (text : Text) : List Text :=
  if text.isEmpty then [] else addLines [] text

/-- Library `String::trim`: whitespace removed at both ends. -/
def trim (text : Text) : Text :=
  ((text.dropWhile isWhitespace).reverse.dropWhile isWhitespace).reverse

/-- Library `String::startsWithChar`. -/
def startsWithChar (text : Text) (c : Char) : Bool :=
  text.head? = some c

/-- The break characters of `StringArray::fromTokens (text, preserveQuotedStrings)`:
space, line feed, carriage return, tab. -/
def isBreakCharacter (c : Char) : Bool :=
  c = ' ' || c = '\n' || c = '\r' || c = '\t'

/-- The loops of library `StringArray::addTokens` and `findEndOfToken` with the double
quote as the only quote character: a token ends at a break character outside quotes (the
break character is skipped, consecutive break characters give empty tokens) or at the end
of the text. `token` is the token read so far. -/
def addTokens (inQuote : Bool) (token : Text) : Text → List Text
  | [] => [token]
  | c :: rest =>
    if !inQuote && isBreakCharacter c then token :: addTokens false [] rest
    else if c = '"' then addTokens (!inQuote) (token ++ [c]) rest
    else addTokens inQuote (token ++ [c]) rest

/-- Library `StringArray::fromTokens (text, true)`: no token at all for the empty text. -/
def fromTokens (text : Text) : List Text :=
  if text.isEmpty then [] else addTokens false [] text

/-- What the number reader finds at the start of a token. -/
structure NumberText where
  negative : Bool
  mantissa : Nat
  fractionDigits : Nat
  anyDigit : Bool
  exponent : Int
deriving DecidableEq

/-- The digit/point loop of library `CharacterFunctions::readDoubleValue`: digits with
at most one decimal point. Returns mantissa, number of fraction digits, whether a digit
was read, and the unread rest. -/
def readMantissa (pointSeen : Bool) (mantissa fractionDigits : Nat) (anyDigit : Bool) :
    Text → Nat × Nat × Bool × Text
  | [] => (mantissa, fractionDigits, anyDigit, [])
  | c :: rest =>
    if c.isDigit then
      readMantissa pointSeen (10 * mantissa + (c.toNat - '0'.toNat))
        (if pointSeen then fractionDigits + 1 else fractionDigits) true rest
    else if !pointSeen && c = '.' then readMantissa true mantissa fractionDigits anyDigit rest
    else (mantissa, fractionDigits, anyDigit, c :: rest)

/-- The exponent digit loop of `readDoubleValue`. -/
def readExponentDigits (exponent : Nat) : Text → Nat
  | [] => exponent
  | c :: rest =>
    if c.isDigit then readExponentDigits (10 * exponent + (c.toNat - '0'.toNat)) rest
    else exponent

/-- The exponent part of `readDoubleValue`: `e` or `E`, an optional sign, digits. -/
def readExponent : Text → Int
  | [] => 0
  | c :: rest =>
    if c = 'e' || c = 'E' then
      match rest with
      | [] => 0
      | d :: rest2 =>
        if d = '-' then -(readExponentDigits 0 rest2 : Int)
        else if d = '+' then (readExponentDigits 0 rest2 : Int)
        else (readExponentDigits 0 (d :: rest2) : Int)
    else 0

/-- The start of `readDoubleValue`: leading whitespace is skipped and an optional sign is
read. Returns whether the sign is `-`, and the text after the sign. -/
def readSign (text : Text) : Bool × Text :=
  match text.dropWhile isWhitespace with
  | [] => (false, [])
  | c :: rest => if c = '-' then (true, rest) else if c = '+' then (false, rest)
                 else (false, c :: rest)

/-- A `double` as the text reader returns it: a finite number, NaN, or an infinity. -/
inductive DoubleValue where
  | finite (value : ℚ)
  | nan
  | posInf
  | negInf
deriving DecidableEq

/-- The special cases of `readDoubleValue` after the sign: the letters `nan` in any case
give NaN, the letters `inf` in any case give the infinity of the sign read; only these
three characters are looked at. -/
def readSpecial (negative : Bool) : Text → Option DoubleValue
  | c0 :: c1 :: c2 :: _ =>
    if (c0 = 'n' || c0 = 'N') && (c1 = 'a' || c1 = 'A') && (c2 = 'n' || c2 = 'N') then
      some DoubleValue.nan
    else if (c0 = 'i' || c0 = 'I') && (c1 = 'n' || c1 = 'N') && (c2 = 'f' || c2 = 'F') then
      some (if negative then DoubleValue.negInf else DoubleValue.posInf)
    else none
  | _ => none

/-- Library `CharacterFunctions::readDoubleValue`, the scanning of a number: leading
whitespace, an optional sign, the mantissa, the exponent. -/
def readNumber (text : Text) : NumberText :=
  let signed := readSign text
  let m := readMantissa false 0 0 false signed.2
  { negative := signed.1, mantissa := m.1, fractionDigits := m.2.1, anyDigit := m.2.2.1,
    exponent := readExponent m.2.2.2 }

/-- The value of a scanned number: 0 when no digit was read, otherwise
`± mantissa / 10^fractionDigits * 10^exponent`. -/
def NumberText.toRat (n : NumberText) : ℚ :=
  if n.anyDigit then
    let v : ℚ := (n.mantissa : ℚ) / 10 ^ n.fractionDigits * 10 ^ n.exponent
    if n.negative then -v else v
  else 0

/-- Library `String::getDoubleValue` (`CharacterFunctions::readDoubleValue`): NaN or an
infinity when the text spells one after the sign; otherwise the number at the start of
the text, 0 when the text does not start with a number. -/
def getDoubleValue (text : Text) : DoubleValue :=
  match readSpecial (readSign text).1 (readSign text).2 with
  | some special => special
  | none => DoubleValue.finite (readNumber text).toRat

/-- Library `juce::jlimit (lower, upper, v)` on a value that may be NaN or an infinity:
`v < lower ? lower : (upper < v ? upper : v)`. NaN fails both comparisons and is
returned; the infinities are limited like any other value. -/
def jlimitDouble (lowerLimit upperLimit : ℚ) : DoubleValue → DoubleValue
  | DoubleValue.finite v => DoubleValue.finite (jlimit lowerLimit upperLimit v)
  | DoubleValue.nan => DoubleValue.nan
  | DoubleValue.posInf => DoubleValue.finite upperLimit
  | DoubleValue.negInf => DoubleValue.finite lowerLimit

/-- The state of the `for` loop of `parseBreakpointText`: the vector and `lastTime`. -/
structure ParseLoop where
  breakpoints : List Breakpoint
  lastTime : ℚ
deriving DecidableEq

/-- The body of the `for` loop of `parseBreakpointText`, for one line. The comparison
`time >= lastTime` is false for a NaN time and for `-∞` (`lastTime` is never below -1), so
such a line is skipped. `none` stands for a push the model cannot hold: a breakpoint
with the time `+∞`, or with a NaN value. -/
def parseLine (acc : ParseLoop) (line : Text) : Option ParseLoop :=
  let trimmed := trim line
  if trimmed.isEmpty || startsWithChar trimmed '#' then some acc
  else
    let tokens := fromTokens trimmed
    if h : tokens.length ≥ 2 then
      let time := getDoubleValue tokens[0]
      let value := jlimitDouble (-1) 1 (getDoubleValue tokens[1])
      match time with
      | DoubleValue.finite t =>
        if t ≥ acc.lastTime then
          match value with
          | DoubleValue.finite v =>
            some { breakpoints := acc.breakpoints ++ [{ time := t, value := v }],
                   lastTime := t }
          | _ => none
        else some acc
      | DoubleValue.posInf => none
      | _ => some acc
    else some acc

/-- The `for` loop of `parseBreakpointText` over the lines. -/
def parseLines (acc : ParseLoop) : List Text → Option ParseLoop
  | [] => some acc
  | line :: rest =>
    match parseLine acc line with
    | none => none
    | some next => parseLines next rest

/-- Source `PanningProcessor::parseBreakpointText`; `none` when the curve would hold a
NaN or an infinity. -/
def parseBreakpointText (std : StdSort) (s : State) (text : Text) : Option State :=
  match parseLines { breakpoints := [], lastTime := -1 } (fromLines text) with
  | none => none
  | some loop =>
    let sorted := sortBreakpoints std { s with breakpoints := loop.breakpoints }
    some { sorted with
      breakpointsLoaded := !sorted.breakpoints.isEmpty,
      currentBreakpointIndex := 0 }

/-- Source `PanningProcessor::setBreakpointText`. -/
def setBreakpointText (std : StdSort) (s : State) (text : Text) : Option State :=
  parseBreakpointText std s text

/-- The data record a line carries, as the loop body of `parseBreakpointText` reads it:
the time and the (unclamped) value of a line that is not blank, not a comment and has at
least two tokens. -/
def lineRecord (line : Text) : Option (DoubleValue × DoubleValue) :=
  let trimmed := trim line
  if trimmed.isEmpty || startsWithChar trimmed '#' then none
  else
    let tokens := fromTokens trimmed
    if h : tokens.length ≥ 2 then some (getDoubleValue tokens[0], getDoubleValue tokens[1])
    else none

/-- The data records of a text, in the order their lines appear. -/
def dataRecords (text : Text) : List (DoubleValue × DoubleValue) :=
  (fromLines text).filterMap lineRecord

/-- A record of two finite numbers, as the text reader returns it. -/
def finiteRecord (r : ℚ × ℚ) : DoubleValue × DoubleValue :=
  (DoubleValue.finite r.1, DoubleValue.finite r.2)

/-- Specification side: a value clamped to `[-1, 1]`. -/
def clampUnit (v : ℚ) : ℚ := max (-1) (min 1 v)

/-- Specification side: from the records after a kept record of time `lastKept`, a record
is kept exactly when its time is at least the time of the most recently kept record. -/
def keepAfter (lastKept : ℚ) : List (ℚ × ℚ) → List Breakpoint
  | [] => []
  | r :: rs =>
    if lastKept ≤ r.1 then { time := r.1, value := clampUnit r.2 } :: keepAfter r.1 rs
    else keepAfter lastKept rs

/-- Specification side: the first record is always kept, the later ones by `keepAfter`. -/
def keptRecords : List (ℚ × ℚ) → List Breakpoint
  | [] => []
  | r :: rs => { time := r.1, value := clampUnit r.2 } :: keepAfter r.1 rs

/-- Rounding to the nearest integer, ties to even: the rounding of a fixed-notation
stream insertion (`printf` style) applied to an exact value. -/
def roundHalfEven (q : ℚ) : Int :=
  let f := Int.floor q
  let r := q - f
  if r < 1 / 2 then f
  else if 1 / 2 < r then f + 1
  else if f % 2 = 0 then f
  else f + 1

/-- `count` characters `0` followed by the digits, for a fixed-width fraction. -/
def padZeros (width : Nat) (digits : Text) : Text :=
  List.replicate (width - digits.length) '0' ++ digits

/-- Library `juce::String (double number, int numberOfDecimalPlaces)` for a positive
number of decimal places: fixed notation, a minus sign for a negative number, the integer
part, a point and exactly `numberOfDecimalPlaces` fraction digits, rounded to nearest. -/
def stringFromDouble (number : ℚ) (numberOfDecimalPlaces : Nat) : Text :=
  let scaled : Nat := (roundHalfEven (|number| * 10 ^ numberOfDecimalPlaces)).toNat
  let sign : Text := if number < 0 then ['-'] else []
  sign ++ Nat.toDigits 10 (scaled / 10 ^ numberOfDecimalPlaces) ++ ['.']
    ++ padZeros numberOfDecimalPlaces (Nat.toDigits 10 (scaled % 10 ^ numberOfDecimalPlaces))

/-- Source `PanningProcessor::getBreakpointText`. `generated` is the text of
`juce::Time::getCurrentTime().toString (true, true)`. -/
def getBreakpointText (generated : Text) (s : State) : Text :=
  "# Breakpoint file for UberPanner\n".toList
    ++ "# Format: time(seconds) value(-1.0 to 1.0)\n".toList
    ++ "# Generated: ".toList ++ generated ++ "\n".toList
    ++ "# Lines starting with '#' are ignored\n\n".toList
    ++ (s.breakpoints.map fun point =>
          stringFromDouble point.time 3 ++ " ".toList ++ stringFromDouble point.value 3
            ++ "\n".toList).flatten

/-! ## Construction -/

/-- The `defaultText` of the constructor. -/
def defaultText : Text :=
  ("# Breakpoint file format:\n"
    ++ "# time(seconds) value(-1.0 to 1.0)\n"
    ++ "# -1.0 = full left, 0.0 = center, 1.0 = full right\n"
    ++ "# Lines starting with '#' are comments\n"
    ++ "# Example: pan from left to right over 5 seconds\n"
    ++ "0.0 -1.0\n"
    ++ "5.0 1.0\n").toList

/-- The object after the constructor `PanningProcessor::PanningProcessor` has run:
the member initialisers, then `setBreakpointText (defaultText)`. -/
def constructed (std : StdSort) : Option State :=
  setBreakpointText std initialState defaultText

/-! ## Concrete curves used as evaluation points -/

/-- The curve `[(0,-1),(5,1)]`, loaded, with a reset cursor. -/
def leftToRightCurve : State :=
  { breakpoints := [{ time := 0, value := -1 }, { time := 5, value := 1 }],
    breakpointsLoaded := true, currentTime := 0, timeIncrement := 0,
    currentBreakpointIndex := 0 }

/-- The curve `[(0,-1),(2,0),(5,1)]` after a lookup at time 3: built from the initial
object by `generateRampCurve (5, -1, 1)`, `addBreakpoint (2, 0)` and
`getBreakpointValue (3)`. -/
def midPlayback (std : StdSort) : State :=
  (getBreakpointValue (addBreakpoint std (generateRampCurve initialState 5 (-1) 1) 2 0) 3).2

/-- A timestamp text for the `# Generated:` header line. -/
def sampleTimestamp : Text := "30 Oct 2026 10:56:00am".toList

/-- The curve `[(0,-1),(5,1),(10,0)]`, loaded, with a reset cursor. -/
def threePointCurve : State :=
  { breakpoints := [{ time := 0, value := -1 }, { time := 5, value := 1 },
      { time := 10, value := 0 }],
    breakpointsLoaded := true, currentTime := 0, timeIncrement := 0,
    currentBreakpointIndex := 0 }

/-- A curve with the single breakpoint `(3, 1/2)` and the cursor at 4. -/
def singleBreakpointCurve : State :=
  { breakpoints := [{ time := 3, value := 1 / 2 }],
    breakpointsLoaded := true, currentTime := 0, timeIncrement := 0,
    currentBreakpointIndex := 4 }

/-! ## Lookups issued in order -/

/-- The value `getBreakpointValue` computes from the vector once the loop has left the
cursor at `idx` (the code after the `while` loop). -/
def segmentValue (bps : List Breakpoint) (time : ℚ) (idx : Nat) : ℚ :=
  if hsz : bps.length < 2 then 0
  else if h : idx ≥ bps.length - 1 then
    (bps.getLast (List.ne_nil_of_length_pos (by omega))).value
  else
    let left := bps[idx]
    let right := bps[idx + 1]
    if right.time - left.time = 0 then right.value
    else
      let fraction := (time - left.time) / (right.time - left.time)
      left.value + (right.value - left.value) * fraction

/-- Successive calls of `getBreakpointValue` for the query times of a list, in order, on
the same object: the values returned and the object after the last call. -/
def lookupInOrder (s : State) : List ℚ → List ℚ × State
  | [] => ([], s)
  | t :: ts =>
    let r := getBreakpointValue s t
    let rest := lookupInOrder r.2 ts
    (r.1 :: rest.1, rest.2)

/-! ## The smoothed live value

`smoothedPan` is a library `juce::LinearSmoothedValue<float>`; its members are modelled
after the library class. -/

/-- The members of `juce::LinearSmoothedValue<float>`. -/
structure SmoothedValue where
  currentValue : ℚ
  target : ℚ
  step : ℚ
  countdown : Int
  stepsToTarget : Int
deriving DecidableEq

/-- Library `SmoothedValue::setCurrentAndTargetValue`. -/
def SmoothedValue.setCurrentAndTargetValue (v : SmoothedValue) (newValue : ℚ) :
    SmoothedValue :=
  { v with target := newValue, currentValue := newValue, countdown := 0 }

/-- Library `SmoothedValue::reset (sampleRate, rampLengthInSeconds)`. -/
def SmoothedValue.reset (v : SmoothedValue) (sampleRate rampLengthInSeconds : ℚ) :
    SmoothedValue :=
  SmoothedValue.setCurrentAndTargetValue
    { v with stepsToTarget := Int.floor (rampLengthInSeconds * sampleRate) } v.target

/-- Library `SmoothedValue::setTargetValue` (linear smoothing). -/
def SmoothedValue.setTargetValue (v : SmoothedValue) (newValue : ℚ) : SmoothedValue :=
  if newValue = v.target then v
  else if v.stepsToTarget ≤ 0 then v.setCurrentAndTargetValue newValue
  else
    { v with
      target := newValue,
      countdown := v.stepsToTarget,
      step := (newValue - v.currentValue) / (v.stepsToTarget : ℚ) }

/-- Library `SmoothedValue::getNextValue` (linear smoothing): the value and the object
after the call. -/
def SmoothedValue.getNextValue (v : SmoothedValue) : ℚ × SmoothedValue :=
  if v.countdown ≤ 0 then (v.target, v)
  else
    let counted := { v with countdown := v.countdown - 1 }
    let moved :=
      if 0 < counted.countdown then
        { counted with currentValue := counted.currentValue + counted.step }
      else { counted with currentValue := counted.target }
    (moved.currentValue, moved)

/-! ## The renderer -/

/-- A `double` handed over by the host: a finite number, or NaN or an infinity. -/
inductive HostDouble where
  | finite (value : ℚ)
  | nonFinite
deriving DecidableEq

/-- Library `AudioPlayHead::PositionInfo`, the part read: `getTimeInSeconds ()`. -/
structure PositionInfo where
  timeInSeconds : Option HostDouble
deriving DecidableEq

/-- Library `AudioPlayHead`, the part read: `getPosition ()`. -/
structure PlayHead where
  position : Option PositionInfo
deriving DecidableEq

/-- What a block reads from the host and from the parameter tree: the channel counts,
`getPlayHead ()`, and the raw values of the parameters `pan`, `law` and `sync`. -/
structure Host where
  totalNumInputChannels : Nat
  totalNumOutputChannels : Nat
  playHead : Option PlayHead
  pan : ℚ
  law : ℚ
  sync : ℚ

/-- A `juce::AudioChannelSet`, as far as the layout check and the channel counts read it:
the disabled set, `mono ()`, `stereo ()`, or another set with its number of channels. -/
inductive AudioChannelSet
  | disabled
  | mono
  | stereo
  | other (channels : Nat)
deriving DecidableEq

/-- The number of channels of a set (`AudioChannelSet::size`). -/
def AudioChannelSet.size : AudioChannelSet → Nat
  | AudioChannelSet.disabled => 0
  | AudioChannelSet.mono => 1
  | AudioChannelSet.stereo => 2
  | AudioChannelSet.other channels => channels

/-- A `BusesLayout`: the channel sets of the input buses and of the output buses. -/
structure BusesLayout where
  inputBuses : List AudioChannelSet
  outputBuses : List AudioChannelSet

/-- The channel set of the first input bus (`getMainInputChannelSet`). -/
def getMainInputChannelSet (layouts : BusesLayout) : AudioChannelSet :=
  layouts.inputBuses.headD AudioChannelSet.disabled

/-- The channel set of the first output bus (`getMainOutputChannelSet`). -/
def getMainOutputChannelSet (layouts : BusesLayout) : AudioChannelSet :=
  layouts.outputBuses.headD AudioChannelSet.disabled

/-- The layouts the plugin accepts, `isBusesLayoutSupported`: a stereo main output with a
mono or a stereo main input. -/
def isBusesLayoutSupported (layouts : BusesLayout) : Bool :=
  decide (getMainOutputChannelSet layouts = AudioChannelSet.stereo) &&
    (decide (getMainInputChannelSet layouts = AudioChannelSet.mono) ||
      decide (getMainInputChannelSet layouts = AudioChannelSet.stereo))

/-- The channels of all buses of one direction, which `getTotalNumInputChannels` and
`getTotalNumOutputChannels` count. -/
def totalNumChannels (buses : List AudioChannelSet) : Nat :=
  (buses.map AudioChannelSet.size).sum

/-- The `float` math library the gain laws call: `MathConstants<float>::pi`,
`MathConstants<float>::sqrt2`, `std::sin`, `std::cos`. -/
structure FloatMath where
  pi : ℚ
  sqrt2 : ℚ
  sin : ℚ → ℚ
  cos : ℚ → ℚ

/-- A `juce::AudioBuffer<float>`: `getNumSamples ()` and the sample at
`(channel, index)`. -/
structure AudioBuffer where
  numSamples : Nat
  data : Nat → Nat → ℚ

/-- Writing one sample through a write pointer: `channel[index] = value`. -/
def AudioBuffer.setSample (buffer : AudioBuffer) (channel index : Nat) (value : ℚ) :
    AudioBuffer :=
  { buffer with
    data := fun ch i => if ch = channel ∧ i = index then value else buffer.data ch i }

/-- Library `AudioBuffer::clear (channel, 0, numSamples)`. -/
def AudioBuffer.clear (buffer : AudioBuffer) (channel numSamples : Nat) : AudioBuffer :=
  { buffer with
    data := fun ch i => if ch = channel ∧ i < numSamples then 0 else buffer.data ch i }

/-- The loop `for (int ch = 2; ch < totalOutputChannels; ++ch) buffer.clear (ch, 0, numSamples)`,
from channel `ch` on, `count` channels. -/
def clearChannels (numSamples : Nat) : Nat → Nat → AudioBuffer → AudioBuffer
  | 0, _, buffer => buffer
  | count + 1, ch, buffer => clearChannels numSamples count (ch + 1) (buffer.clear ch numSamples)

/-- The object of the processor as the renderer sees it: the curve members and
`smoothedPan`. -/
structure Renderer where
  state : State
  smoothedPan : SmoothedValue
deriving DecidableEq

/-- The block start time of the automation path of `processBlock` (the code under
`FIX #3`): 0 unless a playhead with a position is there; then the host time, 0 when the
position has no time-in-seconds; a non-finite or negative time is replaced by
`currentTime.load ()`. -/
def resolveBlockStartTime (s : State) (playHead : Option PlayHead) : ℚ :=
  match playHead with
  | none => 0
  | some playhead =>
    match playhead.position with
    | none => 0
    | some positionInfo =>
      match positionInfo.timeInSeconds.getD (HostDouble.finite 0) with
      | HostDouble.nonFinite => s.currentTime
      | HostDouble.finite blockStartTime =>
        if blockStartTime < 0 then s.currentTime else blockStartTime

/-- The sample loop of the mono branches of `processBlock`, `remaining` iterations from
sample `i` on. `nextPan` produces `currentPan` (from `smoothedPan.getNextValue ()` or from
`getBreakpointValue (sampleTime)`) and the object after it; the input and the left output
are both channel 0, the right output is channel 1. -/
def monoLoop {σ : Type} (nextPan : σ → ℚ × σ) (gains : ℚ → PanGains ℚ) :
    Nat → Nat → σ → AudioBuffer → σ × AudioBuffer
  | 0, _, source, buffer => (source, buffer)
  | remaining + 1, i, source, buffer =>
    let drawn := nextPan source
    let g := gains drawn.1
    let sample := buffer.data 0 i
    let written := (buffer.setSample 0 i (sample * g.left)).setSample 1 i (sample * g.right)
    monoLoop nextPan gains remaining (i + 1) drawn.2 written

/-- The sample loop of the stereo branches of `processBlock`, `remaining` iterations from
sample `i` on: channel 0 is scaled by the left gain and channel 1 by the right gain. -/
def stereoLoop {σ : Type} (nextPan : σ → ℚ × σ) (gains : ℚ → PanGains ℚ) :
    Nat → Nat → σ → AudioBuffer → σ × AudioBuffer
  | 0, _, source, buffer => (source, buffer)
  | remaining + 1, i, source, buffer =>
    let drawn := nextPan source
    let g := gains drawn.1
    let leftSample := buffer.data 0 i
    let rightSample := buffer.data 1 i
    let written :=
      (buffer.setSample 0 i (leftSample * g.left)).setSample 1 i (rightSample * g.right)
    stereoLoop nextPan gains remaining (i + 1) drawn.2 written

/-- One `currentPan` of the automation loops: `getBreakpointValue (sampleTime)` and then
`sampleTime += timeIncrement`. The source is the object and `sampleTime`. -/
def nextAutomationPan (source : State × ℚ) : ℚ × (State × ℚ) :=
  let r := getBreakpointValue source.1 source.2
  (r.1, (r.2, source.2 + source.1.timeIncrement))

/-- The gains of `processBlock`:
`isConstantPower ? constantPowerPan (currentPan) : linearPan (currentPan)`. -/
def blockGains (math : FloatMath) (isConstantPower : Bool) (currentPan : ℚ) : PanGains ℚ :=
  if isConstantPower then constantPowerPan math.pi math.sqrt2 math.sin math.cos currentPan
  else linearPan currentPan

/-- The flag `useBreakpoints` of `processBlock`. -/
def useBreakpoints (s : State) (host : Host) : Bool :=
  s.breakpointsLoaded && decide (host.sync > 0.5)

/-- Source `PanningProcessor::processBlock`: the object and the buffer after the block. -/
def processBlock (math : FloatMath) (host : Host) (p : Renderer) (buffer : AudioBuffer) :
    Renderer × AudioBuffer :=
  let numSamples := buffer.numSamples
  let totalInputChannels := host.totalNumInputChannels
  let totalOutputChannels := host.totalNumOutputChannels
  if totalOutputChannels < 2 then (p, buffer)
  else
    let isConstantPower : Bool := decide (host.law > 0.5)
    if !useBreakpoints p.state host then
      let targetPan := host.pan
      let smoothed := p.smoothedPan.setTargetValue targetPan
      if totalInputChannels = 1 ∧ totalOutputChannels ≥ 2 then
        let r := monoLoop SmoothedValue.getNextValue (blockGains math isConstantPower)
          numSamples 0 smoothed buffer
        ({ p with smoothedPan := r.1 },
          clearChannels numSamples (totalOutputChannels - 2) 2 r.2)
      else if totalInputChannels ≥ 2 ∧ totalOutputChannels ≥ 2 then
        let r := stereoLoop SmoothedValue.getNextValue (blockGains math isConstantPower)
          numSamples 0 smoothed buffer
        ({ p with smoothedPan := r.1 },
          clearChannels numSamples (totalOutputChannels - 2) 2 r.2)
      else ({ p with smoothedPan := smoothed }, buffer)
    else
      let blockStartTime := resolveBlockStartTime p.state host.playHead
      let stored := { p.state with currentTime := blockStartTime }
      let sampleTime := blockStartTime
      if totalInputChannels = 1 ∧ totalOutputChannels ≥ 2 then
        let r := monoLoop nextAutomationPan (blockGains math isConstantPower)
          numSamples 0 (stored, sampleTime) buffer
        ({ p with state := r.1.1 },
          clearChannels numSamples (totalOutputChannels - 2) 2 r.2)
      else if totalInputChannels ≥ 2 ∧ totalOutputChannels ≥ 2 then
        let r := stereoLoop nextAutomationPan (blockGains math isConstantPower)
          numSamples 0 (stored, sampleTime) buffer
        ({ p with state := r.1.1 },
          clearChannels numSamples (totalOutputChannels - 2) 2 r.2)
      else ({ p with state := stored }, buffer)

/-- The processor side of `prepareToPlay` together with the smoothed value:
`smoothedPan.reset (sampleRate, 0.05); smoothedPan.setCurrentAndTargetValue (0.0f)`. -/
def Renderer.prepareToPlay (p : Renderer) (sampleRate : ℚ) : Renderer :=
  { state := PanningProcessor.prepareToPlay p.state sampleRate,
    smoothedPan := (p.smoothedPan.reset sampleRate 0.05).setCurrentAndTargetValue 0 }

/-- The state `source` is in after `i` draws of `nextPan`. -/
def sourceAfter {σ : Type} (nextPan : σ → ℚ × σ) (source : σ) : Nat → σ
  | 0 => source
  | i + 1 => (nextPan (sourceAfter nextPan source i)).2

/-- The `currentPan` a sample loop uses for sample `i` when it starts from `source`. -/
def panOfSample {σ : Type} (nextPan : σ → ℚ × σ) (source : σ) (i : Nat) : ℚ :=
  (nextPan (sourceAfter nextPan source i)).1

/-- The pan position `processBlock` uses for sample `i` of a block: from the curve at
the block's sample times on the automation path, from `smoothedPan` otherwise. -/
def blockPan (host : Host) (p : Renderer) (i : Nat) : ℚ :=
  if useBreakpoints p.state host then
    panOfSample nextAutomationPan
      ({ p.state with currentTime := resolveBlockStartTime p.state host.playHead },
        resolveBlockStartTime p.state host.playHead) i
  else
    panOfSample SmoothedValue.getNextValue (p.smoothedPan.setTargetValue host.pan) i

/-- The time the host supplies for a block, if any: `getPlayHead ()`, then
`getPosition ()`, then `getTimeInSeconds ()`. -/
def hostTime (playHead : Option PlayHead) : Option HostDouble :=
  match playHead with
  | none => none
  | some playhead =>
    match playhead.position with
    | none => none
    | some positionInfo => positionInfo.timeInSeconds

/-! ## Reachable objects -/

/-- The curve objects the processor can be in: the constructed object, and what the public
operations (text, generators, interactive editing), `prepareToPlay`, a lookup and the
publication of a block start time make of such an object. A text is a step when the curve
it leaves holds finite numbers only. -/
inductive Reachable (std : StdSort) : State → Prop
  | construct (s : State) : constructed std = some s → Reachable std s
  | text (s : State) (t : Text) (parsed : State) :
      Reachable std s → setBreakpointText std s t = some parsed → Reachable std parsed
  | sine (s : State) (twoPi : ℚ) (sin : ℚ → ℚ) (duration amplitude frequency : ℚ) :
      Reachable std s →
      Reachable std (generateSineCurve std twoPi sin s duration amplitude frequency)
  | ramp (s : State) (duration start endValue : ℚ) :
      Reachable std s → Reachable std (generateRampCurve s duration start endValue)
  | random (s : State) (nextFloat : Nat → ℚ) (duration density : ℚ) :
      Reachable std s → Reachable std (generateRandomCurve std nextFloat s duration density)
  | add (s : State) (time value : ℚ) :
      Reachable std s → Reachable std (addBreakpoint std s time value)
  | update (s : State) (index : Nat) (time value : ℚ) :
      Reachable std s → Reachable std (updateBreakpoint std s index time value)
  | remove (s : State) (index : Nat) : Reachable std s → Reachable std (removeBreakpoint s index)
  | prepare (s : State) (sampleRate : ℚ) :
      Reachable std s → Reachable std (prepareToPlay s sampleRate)
  | lookup (s : State) (time : ℚ) :
      Reachable std s → Reachable std (getBreakpointValue s time).2
  | publish (s : State) (time : ℚ) :
      Reachable std s → Reachable std { s with currentTime := time }

/-! ## Concrete blocks used as evaluation points -/

/-- A stand-in `float` math library: truncated series for `sin` and `cos`. -/
def sampleMath : FloatMath :=
  { pi := 3.14159265, sqrt2 := 1.41421356,
    sin := fun x => x - x ^ 3 / 6, cos := fun x => 1 - x ^ 2 / 2 }

/-- The smoothed value at rest on 0 with a ramp of 2205 steps (44100 Hz, 50 ms). -/
def restingSmoothedPan : SmoothedValue :=
  { currentValue := 0, target := 0, step := 0, countdown := 0, stepsToTarget := 2205 }

/-- The renderer holding the curve `[(0,-1),(5,1)]`, the cursor at 0, a time increment of
1/4 and the smoothed value at rest. -/
def preparedRenderer : Renderer :=
  { state :=
      { breakpoints := [{ time := 0, value := -1 }, { time := 5, value := 1 }],
        breakpointsLoaded := true, currentTime := 0, timeIncrement := 1 / 4,
        currentBreakpointIndex := 0 },
    smoothedPan := restingSmoothedPan }

/-- A playhead that reports the finite time `t`. -/
def playHeadAt (t : ℚ) : Option PlayHead :=
  some { position := some { timeInSeconds := some (HostDouble.finite t) } }

/-- A host block context: the channel counts, the playhead, `pan = 0`, the linear law
(`law = 0`) and the given `sync`. -/
def hostBlock (inputs outputs : Nat) (playHead : Option PlayHead) (sync : ℚ) : Host :=
  { totalNumInputChannels := inputs, totalNumOutputChannels := outputs,
    playHead := playHead, pan := 0, law := 0, sync := sync }

/-- A buffer of `numSamples` samples in which every sample of every channel is 1. -/
def onesBuffer (numSamples : Nat) : AudioBuffer :=
  { numSamples := numSamples, data := fun _ _ => 1 }

/-- The renderer holding the curve `[(2,-1),(5,1)]`, built from the initial object by
`addBreakpoint (2, -1)`, `addBreakpoint (5, 1)` and `prepareToPlay (4)`, with the smoothed
value at rest. -/
def lateStartRenderer (std : StdSort) : Renderer :=
  { state := prepareToPlay (addBreakpoint std (addBreakpoint std initialState 2 (-1)) 5 1) 4,
    smoothedPan := restingSmoothedPan }

/-- The renderer after `preparedRenderer` has rendered one stereo block of one sample at
the host time 6 with sync on. -/
def afterBlockAtSix : Renderer :=
  (processBlock sampleMath (hostBlock 2 2 (playHeadAt 6) 1) preparedRenderer (onesBuffer 1)).1

/-! ## Index safety -/

/-- The `while` loop of `getBreakpointValue` with unchecked vector reads made explicit:
`none` stands for a read at an index that is not below the size of the vector. -/
def advanceCursorChecked (bps : List Breakpoint) (time : ℚ) (idx : Nat) : Option Nat :=
  if idx + 1 < bps.length then
    match bps[idx + 1]? with
    | none => none
    | some next =>
      if time > next.time then advanceCursorChecked bps time (idx + 1) else some idx
  else some idx
termination_by bps.length - idx

/-- Source `PanningProcessor::getBreakpointValue` with unchecked vector reads made
explicit: every `breakpoints[i]` and `breakpoints.back ()` is a lookup that may fail, and
`none` stands for an out-of-range read. -/
def getBreakpointValueChecked (s : State) (time : ℚ) : Option (ℚ × State) :=
  if s.breakpoints.length < 2 then some (0, s)
  else
    match advanceCursorChecked s.breakpoints time s.currentBreakpointIndex with
    | none => none
    | some idx =>
      let s1 := { s with currentBreakpointIndex := idx }
      if idx ≥ s.breakpoints.length - 1 then
        match s.breakpoints.getLast? with
        | none => none
        | some last => some (last.value, s1)
      else
        match s.breakpoints[idx]?, s.breakpoints[idx + 1]? with
        | some left, some right =>
          if right.time - left.time = 0 then some (right.value, s1)
          else
            let fraction := (time - left.time) / (right.time - left.time)
            some (left.value + (right.value - left.value) * fraction, s1)
        | _, _ => none

/-- The objects reachable from the initial object (empty curve, cursor 0) through any
interleaving of `setBreakpointText`, the generators, `addBreakpoint`, `updateBreakpoint`,
`removeBreakpoint`, `prepareToPlay`, `getBreakpointValue` calls and the publication of a
block start time. A text is a step when the curve it leaves holds finite numbers only. -/
inductive ReachableFromInitial (std : StdSort) : State → Prop
  | initial : ReachableFromInitial std initialState
  | text (s : State) (t : Text) (parsed : State) :
      ReachableFromInitial std s → setBreakpointText std s t = some parsed →
      ReachableFromInitial std parsed
  | sine (s : State) (twoPi : ℚ) (sin : ℚ → ℚ) (duration amplitude frequency : ℚ) :
      ReachableFromInitial std s →
      ReachableFromInitial std (generateSineCurve std twoPi sin s duration amplitude frequency)
  | ramp (s : State) (duration start endValue : ℚ) :
      ReachableFromInitial std s →
      ReachableFromInitial std (generateRampCurve s duration start endValue)
  | random (s : State) (nextFloat : Nat → ℚ) (duration density : ℚ) :
      ReachableFromInitial std s →
      ReachableFromInitial std (generateRandomCurve std nextFloat s duration density)
  | add (s : State) (time value : ℚ) :
      ReachableFromInitial std s → ReachableFromInitial std (addBreakpoint std s time value)
  | update (s : State) (index : Nat) (time value : ℚ) :
      ReachableFromInitial std s →
      ReachableFromInitial std (updateBreakpoint std s index time value)
  | remove (s : State) (index : Nat) :
      ReachableFromInitial std s → ReachableFromInitial std (removeBreakpoint s index)
  | prepare (s : State) (sampleRate : ℚ) :
      ReachableFromInitial std s → ReachableFromInitial std (prepareToPlay s sampleRate)
  | lookup (s : State) (time : ℚ) :
      ReachableFromInitial std s → ReachableFromInitial std (getBreakpointValue s time).2
  | publish (s : State) (time : ℚ) :
      ReachableFromInitial std s → ReachableFromInitial std { s with currentTime := time }

/-! ## A text with two records of equal time -/

/-- A text of 17 data lines, the first two with the time 0. -/
def seventeenLines : Text :=
  ("0 0.1\n0 0.2\n1 0\n2 0\n3 0\n4 0\n5 0\n6 0\n7 0\n"
    ++ "8 0\n9 0\n10 0\n11 0\n12 0\n13 0\n14 0\n15 0").toList

/-- The records of `seventeenLines`. -/
def seventeenRecords : List (ℚ × ℚ) :=
  [(0, 0.1), (0, 0.2), (1, 0), (2, 0), (3, 0), (4, 0), (5, 0), (6, 0), (7, 0), (8, 0), (9, 0),
    (10, 0), (11, 0), (12, 0), (13, 0), (14, 0), (15, 0)]

/-! ## Theorems -/

/-- C1: for every position the two gains of `linearPan` are `0.5 - position/2` and
`0.5 + position/2`, and they sum to exactly 1. -/
theorem linearPan_sum_one {α : Type} [Field α] [CharZero α] (position : α) :
    (linearPan position).left = 0.5 - position / 2 ∧
    (linearPan position).right = 0.5 + position / 2 ∧
    (linearPan position).left + (linearPan position).right = 1 := by
  simp only [linearPan]
  refine ⟨by norm_num; ring, by norm_num; ring, by norm_num⟩

/-- C1, evaluated over `ℚ` at position 1/2: the gains are 1/4 and 3/4 and sum to 1. -/
theorem linearPan_sum_one_witness :
    (linearPan (1 / 2 : ℚ)).left = 1 / 4 ∧ (linearPan (1 / 2 : ℚ)).right = 3 / 4 ∧
    (linearPan (1 / 2 : ℚ)).left + (linearPan (1 / 2 : ℚ)).right = 1 :=
  ⟨(linearPan_sum_one (1 / 2 : ℚ)).1.trans (by norm_num),
   (linearPan_sum_one (1 / 2 : ℚ)).2.1.trans (by norm_num),
   (linearPan_sum_one (1 / 2 : ℚ)).2.2⟩

/-- C2: over the reals, with `θ = position * π / 4`, `constantPowerPan` returns
`left = (√2/2)(cos θ - sin θ)` and `right = (√2/2)(cos θ + sin θ)`, and
`left² + right² = 1` for every position. -/
theorem constantPowerPan_unit_power (position : ℝ) :
    (constantPowerPan Real.pi (Real.sqrt 2) Real.sin Real.cos position).left
      = Real.sqrt 2 / 2 *
        (Real.cos (position * Real.pi / 4) - Real.sin (position * Real.pi / 4)) ∧
    (constantPowerPan Real.pi (Real.sqrt 2) Real.sin Real.cos position).right
      = Real.sqrt 2 / 2 *
        (Real.cos (position * Real.pi / 4) + Real.sin (position * Real.pi / 4)) ∧
    (constantPowerPan Real.pi (Real.sqrt 2) Real.sin Real.cos position).left ^ 2
      + (constantPowerPan Real.pi (Real.sqrt 2) Real.sin Real.cos position).right ^ 2 = 1 := by
  have e1 : (0.25 : ℝ) = 1 / 4 := by norm_num
  have e2 : (0.5 : ℝ) = 1 / 2 := by norm_num
  have ea : position * (Real.pi * (1 / 4)) = position * Real.pi / 4 := by ring
  simp only [constantPowerPan, e1, e2, ea]
  have hs : Real.sqrt 2 ^ 2 = 2 := Real.sq_sqrt (by norm_num)
  have ht := Real.sin_sq_add_cos_sq (position * Real.pi / 4)
  refine ⟨by ring, by ring, ?_⟩
  nlinarith [hs, ht]

/-- The cursor loop: where it stops. -/
theorem advanceCursor_spec (bps : List Breakpoint) (time : ℚ) (idx : Nat) :
    idx ≤ advanceCursor bps time idx ∧
    (idx < bps.length → advanceCursor bps time idx < bps.length) ∧
    (∀ k (hk : k < bps.length), idx < k → k ≤ advanceCursor bps time idx → bps[k].time < time) ∧
    (∀ (h : advanceCursor bps time idx + 1 < bps.length),
      ¬ bps[advanceCursor bps time idx + 1].time < time) := by
  induction idx using advanceCursor.induct bps time with
  | case1 idx h hgt ih =>
    rw [advanceCursor, dif_pos h, if_pos hgt]
    obtain ⟨ih1, ih2, ih3, ih4⟩ := ih
    refine ⟨by omega, fun _ => ih2 h, ?_, ih4⟩
    intro k hk hik hkj
    rcases Nat.eq_or_lt_of_le (Nat.succ_le_of_lt hik) with e | e
    · subst e; exact hgt
    · exact ih3 k hk e hkj
  | case2 idx h hgt =>
    rw [advanceCursor, dif_pos h, if_neg hgt]
    refine ⟨le_refl _, fun h => h, ?_, fun _ => hgt⟩
    intro k hk hik hkj; omega
  | case3 idx h =>
    rw [advanceCursor, dif_neg h]
    refine ⟨le_refl _, fun h => h, ?_, fun h2 => absurd h2 h⟩
    intro k hk hik hkj; omega

/-- The value `getBreakpointValue` returns once the loop has stopped on the last index. -/
theorem getBreakpointValue_at_end (s : State) (t : ℚ) (hne : s.breakpoints ≠ [])
    (hlen : 2 ≤ s.breakpoints.length)
    (hj : s.breakpoints.length - 1 ≤ advanceCursor s.breakpoints t s.currentBreakpointIndex) :
    (getBreakpointValue s t).1 = (s.breakpoints.getLast hne).value := by
  unfold getBreakpointValue
  rw [dif_neg (by omega)]
  simp only
  rw [dif_pos hj]

/-- The value `getBreakpointValue` returns once the loop has stopped before the last index. -/
theorem getBreakpointValue_inside (s : State) (t : ℚ)
    (hj : advanceCursor s.breakpoints t s.currentBreakpointIndex + 1 < s.breakpoints.length) :
    (getBreakpointValue s t).1 =
      if s.breakpoints[advanceCursor s.breakpoints t s.currentBreakpointIndex + 1].time
          - s.breakpoints[advanceCursor s.breakpoints t s.currentBreakpointIndex].time = 0
      then s.breakpoints[advanceCursor s.breakpoints t s.currentBreakpointIndex + 1].value
      else s.breakpoints[advanceCursor s.breakpoints t s.currentBreakpointIndex].value
        + (s.breakpoints[advanceCursor s.breakpoints t s.currentBreakpointIndex + 1].value
            - s.breakpoints[advanceCursor s.breakpoints t s.currentBreakpointIndex].value)
          * ((t - s.breakpoints[advanceCursor s.breakpoints t s.currentBreakpointIndex].time)
            / (s.breakpoints[advanceCursor s.breakpoints t s.currentBreakpointIndex + 1].time
              - s.breakpoints[advanceCursor s.breakpoints t s.currentBreakpointIndex].time)) := by
  unfold getBreakpointValue
  rw [dif_neg (by omega)]
  simp only
  rw [dif_neg (by omega)]
  split <;> rfl

/-- C3: on a curve with at least 2 breakpoints and strictly increasing times, queried from a
reset cursor: a time after the last breakpoint gives the last value; a time inside a segment
`[t_i, t_(i+1)]` gives the linear interpolation `v_i + (v_(i+1) - v_i) (t - t_i) / (t_(i+1) - t_i)`.
(The bound `t_0 ≤ t` of the claim follows from either premise.) -/
theorem getBreakpointValue_interpolates (s : State) (t : ℚ)
    (hlen : 2 ≤ s.breakpoints.length)
    (hinc : s.breakpoints.Pairwise (fun a b => a.time < b.time))
    (hcur : s.currentBreakpointIndex = 0) :
    (∀ hne : s.breakpoints ≠ [], (s.breakpoints.getLast hne).time < t →
      (getBreakpointValue s t).1 = (s.breakpoints.getLast hne).value) ∧
    (∀ i (hi : i + 1 < s.breakpoints.length),
      s.breakpoints[i].time ≤ t → t ≤ s.breakpoints[i + 1].time →
      (getBreakpointValue s t).1 =
        s.breakpoints[i].value + (s.breakpoints[i + 1].value - s.breakpoints[i].value)
          * (t - s.breakpoints[i].time) / (s.breakpoints[i + 1].time - s.breakpoints[i].time)) := by
  obtain ⟨-, -, hpast, hstop⟩ := advanceCursor_spec s.breakpoints t s.currentBreakpointIndex
  rw [hcur] at hpast hstop
  have hmono : ∀ a b (ha : a < s.breakpoints.length) (hb : b < s.breakpoints.length),
      a < b → s.breakpoints[a].time < s.breakpoints[b].time :=
    fun a b ha hb hab => List.pairwise_iff_getElem.mp hinc a b ha hb hab
  have hmono_le : ∀ a b (ha : a < s.breakpoints.length) (hb : b < s.breakpoints.length),
      a ≤ b → s.breakpoints[a].time ≤ s.breakpoints[b].time := by
    intro a b ha hb hab
    rcases Nat.eq_or_lt_of_le hab with e | e
    · subst e; exact le_refl _
    · exact le_of_lt (hmono a b ha hb e)
  constructor
  · intro hne hlt
    apply getBreakpointValue_at_end s t hne hlen
    rw [hcur]
    by_contra hcon
    have hj : advanceCursor s.breakpoints t 0 + 1 < s.breakpoints.length := by omega
    have h1 := hstop hj
    have h2 := hmono_le (advanceCursor s.breakpoints t 0 + 1) (s.breakpoints.length - 1) hj
      (by omega) (by omega)
    rw [List.getLast_eq_getElem] at hlt
    exact h1 (lt_of_le_of_lt h2 hlt)
  · intro i hi hlo hhi
    by_cases hj : advanceCursor s.breakpoints t 0 + 1 < s.breakpoints.length
    · have hval := getBreakpointValue_inside s t (by rw [hcur]; exact hj)
      simp only [hcur] at hval
      rw [hval]
      have hstep := hmono (advanceCursor s.breakpoints t 0) (advanceCursor s.breakpoints t 0 + 1)
        (by omega) hj (by omega)
      rw [if_neg (by linarith)]
      have hnotlt : ¬ i < advanceCursor s.breakpoints t 0 := by
        intro hlt
        have := hpast (i + 1) hi (by omega) (by omega)
        linarith
      rcases Nat.eq_or_lt_of_le (Nat.le_of_not_lt hnotlt) with e | e
      · simp only [e]; ring
      · -- the query sits exactly on breakpoint `i = j + 1`
        have h1 := hstop hj
        have h2 := hmono_le (advanceCursor s.breakpoints t 0 + 1) i hj (by omega) (by omega)
        have hti : s.breakpoints[i].time = t := le_antisymm hlo (by linarith)
        have htj : s.breakpoints[advanceCursor s.breakpoints t 0 + 1].time = t :=
          le_antisymm (by linarith) (by linarith)
        have hij : advanceCursor s.breakpoints t 0 + 1 = i := by
          by_contra hne
          have := hmono (advanceCursor s.breakpoints t 0 + 1) i hj (by omega) (by omega)
          linarith
        have hvi : s.breakpoints[advanceCursor s.breakpoints t 0 + 1].value
            = s.breakpoints[i].value := by simp only [hij]
        rw [hvi, htj, hti]
        have hd : t - s.breakpoints[advanceCursor s.breakpoints t 0].time ≠ 0 := by
          have hpos : 0 < t - s.breakpoints[advanceCursor s.breakpoints t 0].time := by linarith
          exact ne_of_gt hpos
        rw [div_self hd]
        ring
    · exfalso
      have hlast := hpast (s.breakpoints.length - 1) (by omega) (by omega) (by omega)
      have h2 := hmono_le (i + 1) (s.breakpoints.length - 1) hi (by omega) (by omega)
      linarith

/-- C3, evaluated on `[(0,-1),(5,1)]`: the values at 0, 2.5, 5 and 7 are -1, 0, 1 and 1. -/
theorem getBreakpointValue_interpolates_witness :
    (getBreakpointValue leftToRightCurve 0).1 = -1 ∧
    (getBreakpointValue leftToRightCurve 2.5).1 = 0 ∧
    (getBreakpointValue leftToRightCurve 5).1 = 1 ∧
    (getBreakpointValue leftToRightCurve 7).1 = 1 := by
  have hlen : 2 ≤ leftToRightCurve.breakpoints.length := by decide
  have hinc : leftToRightCurve.breakpoints.Pairwise (fun a b => a.time < b.time) := by
    simp [leftToRightCurve]
  refine ⟨?_, ?_, ?_, ?_⟩
  · exact ((getBreakpointValue_interpolates leftToRightCurve 0 hlen hinc rfl).2 0 (by decide)
      (by norm_num [leftToRightCurve]) (by norm_num [leftToRightCurve])).trans
      (by norm_num [leftToRightCurve])
  · exact ((getBreakpointValue_interpolates leftToRightCurve 2.5 hlen hinc rfl).2 0 (by decide)
      (by norm_num [leftToRightCurve]) (by norm_num [leftToRightCurve])).trans
      (by norm_num [leftToRightCurve])
  · exact ((getBreakpointValue_interpolates leftToRightCurve 5 hlen hinc rfl).2 0 (by decide)
      (by norm_num [leftToRightCurve]) (by norm_num [leftToRightCurve])).trans
      (by norm_num [leftToRightCurve])
  · exact ((getBreakpointValue_interpolates leftToRightCurve 7 hlen hinc rfl).1
      (by simp [leftToRightCurve]) (by norm_num [leftToRightCurve])).trans
      (by norm_num [leftToRightCurve])

/-- C10: `removeBreakpoint` with an out-of-range index changes nothing; with an in-range
index it deletes exactly that breakpoint (the others keep their order), sets the loaded
flag to "result non-empty" and resets the cursor to 0. -/
theorem removeBreakpoint_spec (s : State) (index : Nat) :
    (s.breakpoints.length ≤ index → removeBreakpoint s index = s) ∧
    (index < s.breakpoints.length →
      (removeBreakpoint s index).breakpoints
        = s.breakpoints.take index ++ s.breakpoints.drop (index + 1) ∧
      (removeBreakpoint s index).breakpoints.length + 1 = s.breakpoints.length ∧
      ((removeBreakpoint s index).breakpointsLoaded = true
        ↔ (removeBreakpoint s index).breakpoints ≠ []) ∧
      (s.breakpoints.length = 1 → (removeBreakpoint s index).breakpointsLoaded = false) ∧
      (removeBreakpoint s index).currentBreakpointIndex = 0) := by
  constructor
  · intro h
    simp [removeBreakpoint, Nat.not_lt.mpr h]
  · intro h
    simp only [removeBreakpoint, if_pos h]
    refine ⟨List.eraseIdx_eq_take_drop_succ _ _, ?_, ?_, ?_, trivial⟩
    · rw [List.length_eraseIdx, if_pos h]; omega
    · simp [List.isEmpty_iff]
    · intro h1
      have : (s.breakpoints.eraseIdx index).length = 0 := by
        rw [List.length_eraseIdx, if_pos h]; omega
      simp [List.length_eq_zero.mp this]

/-- C10, evaluated: removing index 5 of `[(0,-1),(5,1)]` changes nothing, removing index 0
leaves `[(5,1)]` loaded with the cursor at 0. -/
theorem removeBreakpoint_spec_witness :
    removeBreakpoint leftToRightCurve 5 = leftToRightCurve ∧
    (removeBreakpoint leftToRightCurve 0).breakpoints = [{ time := 5, value := 1 }] ∧
    (removeBreakpoint leftToRightCurve 0).currentBreakpointIndex = 0 := by
  refine ⟨(removeBreakpoint_spec leftToRightCurve 5).1 (by decide), ?_, ?_⟩
  · exact ((removeBreakpoint_spec leftToRightCurve 0).2 (by decide)).1.trans
      (by simp [leftToRightCurve])
  · exact ((removeBreakpoint_spec leftToRightCurve 0).2 (by decide)).2.2.2.2

/-! ### Sorting lemmas -/

theorem timeOrdered_iff (a b : Breakpoint) : timeOrdered a b ↔ a.time ≤ b.time := by
  simp [timeOrdered, timeLess]

/-- The sort yields a sequence sorted by time. -/
theorem sortVector_sorted (std : StdSort) (bps : List Breakpoint) :
    SortedByTime (sortVector std bps) :=
  std.sorted bps

/-- The sort permutes the sequence. -/
theorem sortVector_perm (std : StdSort) (bps : List Breakpoint) :
    (sortVector std bps).Perm bps :=
  std.perm bps

/-- Sorting a vector whose times are pairwise different has one possible outcome: the
rearrangement with strictly increasing times. -/
theorem sortVector_eq_of_strict (std : StdSort) (bps target : List Breakpoint)
    (hperm : bps.Perm target) (hstrict : target.Pairwise (fun a b => a.time < b.time)) :
    sortVector std bps = target := by
  have hp : (sortVector std bps).Perm target := (sortVector_perm std bps).trans hperm
  have hle : ((sortVector std bps).map fun b => b.time).Sorted (fun x y => x ≤ y) :=
    List.pairwise_map.mpr
      ((sortVector_sorted std bps).imp fun {a b} h => (timeOrdered_iff a b).mp h)
  have htarget : (target.map fun b => b.time).Sorted (fun x y => x < y) :=
    List.pairwise_map.mpr hstrict
  have hnodup : ((sortVector std bps).map fun b => b.time).Nodup :=
    (hp.map fun b => b.time).nodup_iff.mpr htarget.nodup
  have hlt : (sortVector std bps).Pairwise (fun a b => a.time < b.time) :=
    List.pairwise_map.mp (hle.lt_of_le hnodup)
  haveI : IsAntisymm Breakpoint (fun a b => a.time < b.time) :=
    ⟨fun a b h1 h2 => absurd h1 (not_lt.mpr (le_of_lt h2))⟩
  exact List.eq_of_perm_of_sorted hp hlt hstrict

/-- Sorting a vector that is already sorted keeps the sequence of times; only breakpoints
with equal times can change places. -/
theorem sortVector_times_of_sorted (std : StdSort) (bps : List Breakpoint)
    (h : SortedByTime bps) :
    ((sortVector std bps).map fun b => b.time) = bps.map fun b => b.time := by
  have h1 : ((sortVector std bps).map fun b => b.time).Sorted (fun x y => x ≤ y) :=
    List.pairwise_map.mpr
      ((sortVector_sorted std bps).imp fun {a b} h => (timeOrdered_iff a b).mp h)
  have h2 : (bps.map fun b => b.time).Sorted (fun x y => x ≤ y) :=
    List.pairwise_map.mpr (h.imp fun {a b} h => (timeOrdered_iff a b).mp h)
  exact List.eq_of_perm_of_sorted ((sortVector_perm std bps).map fun b => b.time) h1 h2

/-! ### Parsing lemmas -/

theorem jlimit_eq_clampUnit (v : ℚ) : jlimit (-1) 1 v = clampUnit v := by
  unfold jlimit clampUnit
  split_ifs with h1 h2
  · rw [min_eq_right (by linarith), max_eq_left (by linarith)]
  · rw [min_eq_left (by linarith), max_eq_right (by norm_num)]
  · rw [min_eq_right (by linarith), max_eq_right (by linarith)]

/-- A line that carries no record leaves the loop state as it is. -/
theorem parseLine_of_no_record (acc : ParseLoop) (line : Text) (h : lineRecord line = none) :
    parseLine acc line = some acc := by
  unfold lineRecord at h
  unfold parseLine
  simp only [] at h ⊢
  split_ifs at h ⊢ with h1 h2
  · rfl
  · rfl

/-- One step of the loop on a line with two finite numbers: push when the time is not
below `lastTime`. -/
theorem parseLine_of_finite_record (acc : ParseLoop) (line : Text) (r : ℚ × ℚ)
    (h : lineRecord line = some (finiteRecord r)) :
    parseLine acc line = some
      (if acc.lastTime ≤ r.1 then
        { breakpoints := acc.breakpoints ++ [{ time := r.1, value := jlimit (-1) 1 r.2 }],
          lastTime := r.1 }
      else acc) := by
  unfold lineRecord at h
  unfold parseLine
  simp only [] at h ⊢
  split_ifs at h ⊢ with h1 h2 h3
  · simp only [Option.some.injEq, finiteRecord, Prod.mk.injEq] at h
    simp only [h.1, h.2, jlimitDouble, ge_iff_le, if_pos h3]
  · simp only [Option.some.injEq, finiteRecord, Prod.mk.injEq] at h
    simp only [h.1, h.2, jlimitDouble, ge_iff_le, if_neg h3]

/-- The loop over lines whose records are all finite: it ends, and the vector it leaves
is the vector it started with followed by the records kept after `lastTime`. -/
theorem parseLines_of_finite (lines : List Text) (acc : ParseLoop) (rs : List (ℚ × ℚ))
    (h : lines.filterMap lineRecord = rs.map finiteRecord) :
    ∃ loop, parseLines acc lines = some loop ∧
      loop.breakpoints = acc.breakpoints ++ keepAfter acc.lastTime rs := by
  induction lines generalizing acc rs with
  | nil =>
    cases rs with
    | nil => exact ⟨acc, rfl, by simp [keepAfter]⟩
    | cons r rs => simp at h
  | cons line rest ih =>
    cases hrec : lineRecord line with
    | none =>
      rw [List.filterMap_cons, hrec] at h
      obtain ⟨loop, h1, h2⟩ := ih acc rs h
      refine ⟨loop, ?_, h2⟩
      simp only [parseLines, parseLine_of_no_record acc line hrec]
      exact h1
    | some d =>
      rw [List.filterMap_cons, hrec] at h
      cases rs with
      | nil => simp at h
      | cons r rs =>
        simp only [List.map_cons, List.cons.injEq] at h
        have hd : lineRecord line = some (finiteRecord r) := by rw [hrec, h.1]
        by_cases hle : acc.lastTime ≤ r.1
        · obtain ⟨loop, h1, h2⟩ := ih
            { breakpoints := acc.breakpoints ++ [{ time := r.1, value := jlimit (-1) 1 r.2 }],
              lastTime := r.1 } rs h.2
          refine ⟨loop, ?_, ?_⟩
          · simp only [parseLines, parseLine_of_finite_record acc line r hd, if_pos hle]
            exact h1
          · rw [h2]
            simp [keepAfter, hle, jlimit_eq_clampUnit]
        · obtain ⟨loop, h1, h2⟩ := ih acc rs h.2
          refine ⟨loop, ?_, ?_⟩
          · simp only [parseLines, parseLine_of_finite_record acc line r hd, if_neg hle]
            exact h1
          · rw [h2]
            simp [keepAfter, hle]

/-- What `parseBreakpointText` makes of the vector the loop leaves. -/
theorem parseBreakpointText_of_loop (std : StdSort) (s : State) (text : Text)
    (loop : ParseLoop)
    (h : parseLines { breakpoints := [], lastTime := -1 } (fromLines text) = some loop) :
    parseBreakpointText std s text = some
      { s with
        breakpoints := sortVector std loop.breakpoints,
        breakpointsLoaded := !(sortVector std loop.breakpoints).isEmpty,
        currentBreakpointIndex := 0 } := by
  unfold parseBreakpointText
  rw [h]
  rfl

/-- What `parseBreakpointText` returns, when it returns an object. -/
theorem parseBreakpointText_some (std : StdSort) (s : State) (text : Text) (parsed : State)
    (h : parseBreakpointText std s text = some parsed) :
    ∃ loop, parseLines { breakpoints := [], lastTime := -1 } (fromLines text) = some loop ∧
      parsed = { s with
        breakpoints := sortVector std loop.breakpoints,
        breakpointsLoaded := !(sortVector std loop.breakpoints).isEmpty,
        currentBreakpointIndex := 0 } := by
  cases hl : parseLines { breakpoints := [], lastTime := -1 } (fromLines text) with
  | none =>
    unfold parseBreakpointText at h
    rw [hl] at h
    exact absurd h (by simp)
  | some loop =>
    rw [parseBreakpointText_of_loop std s text loop hl] at h
    exact ⟨loop, rfl, (Option.some.inj h).symm⟩

theorem keepAfter_sorted (last : ℚ) (rs : List (ℚ × ℚ)) :
    SortedByTime (keepAfter last rs) ∧ ∀ b ∈ keepAfter last rs, last ≤ b.time := by
  induction rs generalizing last with
  | nil => simp [keepAfter, SortedByTime]
  | cons r rs ih =>
    simp only [keepAfter]
    split_ifs with h
    · obtain ⟨h1, h2⟩ := ih r.1
      refine ⟨?_, ?_⟩
      · refine List.sorted_cons.mpr ⟨fun b hb => (timeOrdered_iff _ _).mpr (h2 b hb), h1⟩
      · intro b hb
        rcases List.mem_cons.mp hb with e | e
        · subst e; exact h
        · exact le_trans h (h2 b e)
    · exact ih last

theorem keepAfter_sublist (last : ℚ) (rs : List (ℚ × ℚ)) :
    (keepAfter last rs).Sublist
      (rs.map fun r => ({ time := r.1, value := clampUnit r.2 } : Breakpoint)) := by
  induction rs generalizing last with
  | nil => simp [keepAfter]
  | cons r rs ih =>
    simp only [keepAfter, List.map_cons]
    split_ifs with h
    · exact (ih r.1).cons₂ _
    · exact (ih last).cons _

theorem keepAfter_of_first (r : ℚ × ℚ) (rs : List (ℚ × ℚ)) (h : -1 ≤ r.1) :
    keepAfter (-1) (r :: rs) = keptRecords (r :: rs) := by
  simp [keepAfter, keptRecords, h]

/-- The curve `parseBreakpointText` leaves for a text whose records are finite with
non-negative times: the sorted kept records. -/
theorem parseBreakpointText_of_finite (std : StdSort) (s : State) (text : Text)
    (rs : List (ℚ × ℚ)) (hrec : dataRecords text = rs.map finiteRecord)
    (hpos : ∀ r ∈ rs, 0 ≤ r.1) :
    parseBreakpointText std s text = some
      { s with
        breakpoints := sortVector std (keptRecords rs),
        breakpointsLoaded := !(sortVector std (keptRecords rs)).isEmpty,
        currentBreakpointIndex := 0 } := by
  obtain ⟨loop, h1, h2⟩ := parseLines_of_finite (fromLines text)
    { breakpoints := [], lastTime := -1 } rs hrec
  have hk : loop.breakpoints = keptRecords rs := by
    rw [h2, List.nil_append]
    cases rs with
    | nil => rfl
    | cons r rs =>
      apply keepAfter_of_first
      have := hpos r (List.mem_cons_self _ _)
      show (-1 : ℚ) ≤ r.1
      linarith
  rw [parseBreakpointText_of_loop std s text loop h1, hk]

theorem keptRecords_sorted (rs : List (ℚ × ℚ)) : SortedByTime (keptRecords rs) := by
  cases rs with
  | nil => simp [keptRecords, SortedByTime]
  | cons r rs =>
    obtain ⟨h1, h2⟩ := keepAfter_sorted r.1 rs
    exact List.sorted_cons.mpr ⟨fun b hb => (timeOrdered_iff _ _).mpr (h2 b hb), h1⟩

set_option maxRecDepth 100000 in
/-- The records of the text `seventeenLines`. -/
theorem dataRecords_seventeenLines :
    dataRecords seventeenLines = seventeenRecords.map finiteRecord := by
  simp +decide [dataRecords, seventeenLines, seventeenRecords, finiteRecord, lineRecord,
    fromLines, addLines, trim, startsWithChar, fromTokens, addTokens, getDoubleValue,
    readSign, readSpecial, readNumber, readMantissa, readExponent, NumberText.toRat]
  norm_num

set_option maxRecDepth 100000 in
/-- C4 as stated fails: the 17 records of `seventeenLines` are all kept, and the sort that
follows (a `std::sort` that meets the standard) leaves the two records of time 0 in the
order `(0, 0.2)`, `(0, 0.1)`, not in their input order. -/
theorem equal_times_reordered_by_sort :
    (parseBreakpointText sampleStdSort initialState seventeenLines).map
        (fun parsed => parsed.breakpoints)
      = some [{ time := 0, value := 0.2 }, { time := 0, value := 0.1 },
         { time := 1, value := 0 },
         { time := 2, value := 0 }, { time := 3, value := 0 }, { time := 4, value := 0 },
         { time := 5, value := 0 }, { time := 6, value := 0 }, { time := 7, value := 0 },
         { time := 8, value := 0 }, { time := 9, value := 0 }, { time := 10, value := 0 },
         { time := 11, value := 0 }, { time := 12, value := 0 }, { time := 13, value := 0 },
         { time := 14, value := 0 }, { time := 15, value := 0 }] ∧
    keptRecords seventeenRecords
      = [{ time := 0, value := 0.1 }, { time := 0, value := 0.2 }, { time := 1, value := 0 },
         { time := 2, value := 0 }, { time := 3, value := 0 }, { time := 4, value := 0 },
         { time := 5, value := 0 }, { time := 6, value := 0 }, { time := 7, value := 0 },
         { time := 8, value := 0 }, { time := 9, value := 0 }, { time := 10, value := 0 },
         { time := 11, value := 0 }, { time := 12, value := 0 }, { time := 13, value := 0 },
         { time := 14, value := 0 }, { time := 15, value := 0 }] ∧
    (parseBreakpointText sampleStdSort initialState seventeenLines).map
        (fun parsed => parsed.breakpoints) ≠ some (keptRecords seventeenRecords) := by
  have hk : keptRecords seventeenRecords
      = [{ time := 0, value := 0.1 }, { time := 0, value := 0.2 }, { time := 1, value := 0 },
         { time := 2, value := 0 }, { time := 3, value := 0 }, { time := 4, value := 0 },
         { time := 5, value := 0 }, { time := 6, value := 0 }, { time := 7, value := 0 },
         { time := 8, value := 0 }, { time := 9, value := 0 }, { time := 10, value := 0 },
         { time := 11, value := 0 }, { time := 12, value := 0 }, { time := 13, value := 0 },
         { time := 14, value := 0 }, { time := 15, value := 0 }] := by
    norm_num [keptRecords, keepAfter, clampUnit, seventeenRecords]
  have hp : (parseBreakpointText sampleStdSort initialState seventeenLines).map
        (fun parsed => parsed.breakpoints)
      = some [{ time := 0, value := 0.2 }, { time := 0, value := 0.1 },
         { time := 1, value := 0 },
         { time := 2, value := 0 }, { time := 3, value := 0 }, { time := 4, value := 0 },
         { time := 5, value := 0 }, { time := 6, value := 0 }, { time := 7, value := 0 },
         { time := 8, value := 0 }, { time := 9, value := 0 }, { time := 10, value := 0 },
         { time := 11, value := 0 }, { time := 12, value := 0 }, { time := 13, value := 0 },
         { time := 14, value := 0 }, { time := 15, value := 0 }] := by
    rw [parseBreakpointText_of_finite sampleStdSort initialState seventeenLines seventeenRecords
      dataRecords_seventeenLines (by norm_num [seventeenRecords]), hk]
    norm_num [sortVector, sampleStdSort, timeOrdered, timeLess]
  refine ⟨hp, hk, ?_⟩
  rw [hp, hk]
  norm_num

/-- C4, amended: when all record times are non-negative, `parseBreakpointText` leaves as
the curve the records kept by the rule "time at least the time of the most recently kept
record, the first record always kept", values clamped to `[-1,1]`, sorted by time, with
the cursor at 0. The kept records are a subsequence of the input records (dropped, not
reordered); the curve is a rearrangement of the kept records with the same sequence of
times, so only kept records of equal time can change places; and when the kept times are
pairwise different the curve is exactly the kept records in input order. -/
theorem parseBreakpointText_keeps_records (std : StdSort) (s : State) (text : Text)
    (rs : List (ℚ × ℚ)) (hrec : dataRecords text = rs.map finiteRecord)
    (hpos : ∀ r ∈ rs, 0 ≤ r.1) :
    ∃ parsed, parseBreakpointText std s text = some parsed ∧
      (keptRecords rs).Sublist
        (rs.map fun r => ({ time := r.1, value := clampUnit r.2 } : Breakpoint)) ∧
      parsed.breakpoints.Perm (keptRecords rs) ∧
      SortedByTime parsed.breakpoints ∧
      (parsed.breakpoints.map fun b => b.time) = (keptRecords rs).map (fun b => b.time) ∧
      ((keptRecords rs).Pairwise (fun a b => a.time < b.time) →
        parsed.breakpoints = keptRecords rs) ∧
      parsed.currentBreakpointIndex = 0 := by
  have hsub : (keptRecords rs).Sublist
      (rs.map fun r => ({ time := r.1, value := clampUnit r.2 } : Breakpoint)) := by
    cases rs with
    | nil => simp [keptRecords]
    | cons r rs => exact (keepAfter_sublist r.1 rs).cons₂ _
  exact ⟨_, parseBreakpointText_of_finite std s text rs hrec hpos, hsub,
    sortVector_perm std _, sortVector_sorted std _,
    sortVector_times_of_sorted std _ (keptRecords_sorted rs),
    fun hstrict => sortVector_eq_of_strict std _ _ (List.Perm.refl _) hstrict, rfl⟩

/-- C4 amended, evaluated on the two texts of the specification: `"0.0 -1.0\n5.0 1.0\n"`
gives exactly `[(0,-1),(5,1)]`, and `"3.0 0.5"` followed by `"1.0 0.2"` gives exactly
`[(3,0.5)]`. -/
theorem parseBreakpointText_keeps_records_witness :
    (parseBreakpointText sampleStdSort initialState "0.0 -1.0\n5.0 1.0\n".toList).map
        (fun parsed => parsed.breakpoints)
      = some [{ time := 0, value := -1 }, { time := 5, value := 1 }] ∧
    (parseBreakpointText sampleStdSort initialState "3.0 0.5\n1.0 0.2".toList).map
        (fun parsed => parsed.breakpoints)
      = some [{ time := 3, value := 0.5 }] := by
  have e1 : dataRecords "0.0 -1.0\n5.0 1.0\n".toList
      = [((0 : ℚ), (-1 : ℚ)), (5, 1)].map finiteRecord := by
    simp +decide [dataRecords, finiteRecord, lineRecord, fromLines, addLines, trim,
      startsWithChar, fromTokens, addTokens, getDoubleValue, readSign, readSpecial, readNumber,
      readMantissa, readExponent, NumberText.toRat]
    norm_num
  have e2 : dataRecords "3.0 0.5\n1.0 0.2".toList
      = [((3 : ℚ), (0.5 : ℚ)), (1, 0.2)].map finiteRecord := by
    simp +decide [dataRecords, finiteRecord, lineRecord, fromLines, addLines, trim,
      startsWithChar, fromTokens, addTokens, getDoubleValue, readSign, readSpecial, readNumber,
      readMantissa, readExponent, NumberText.toRat]
    norm_num
  constructor
  · obtain ⟨parsed, hp, -, -, -, -, hstrict, -⟩ :=
      parseBreakpointText_keeps_records sampleStdSort initialState _ _ e1 (by norm_num)
    rw [hp, Option.map_some', hstrict (by norm_num [keptRecords, keepAfter, clampUnit])]
    norm_num [keptRecords, keepAfter, clampUnit]
  · obtain ⟨parsed, hp, -, -, -, -, hstrict, -⟩ :=
      parseBreakpointText_keeps_records sampleStdSort initialState _ _ e2 (by norm_num)
    rw [hp, Option.map_some', hstrict (by norm_num [keptRecords, keepAfter, clampUnit])]
    norm_num [keptRecords, keepAfter, clampUnit]

/-- A line with fewer than two tokens leaves the loop state as it is. -/
theorem parseLine_short (acc : ParseLoop) (line : Text)
    (h : (fromTokens (trim line)).length < 2) : parseLine acc line = some acc := by
  unfold parseLine
  simp only []
  split_ifs with h1 h2
  · rfl
  · omega
  · rfl

/-- The loop over two stretches of lines runs the second from where the first ends. -/
theorem parseLines_append (acc : ParseLoop) (before after : List Text) :
    parseLines acc (before ++ after)
      = match parseLines acc before with
        | none => none
        | some next => parseLines next after := by
  induction before generalizing acc with
  | nil => rfl
  | cons line rest ih =>
    simp only [List.cons_append, parseLines]
    cases parseLine acc line with
    | none => rfl
    | some next => exact ih next

/-- The text reader on tokens without a number: `abc` and `def` read as 0. -/
theorem getDoubleValue_letters :
    getDoubleValue "abc".toList = DoubleValue.finite 0 ∧
    getDoubleValue "def".toList = DoubleValue.finite 0 := by
  constructor <;>
  simp +decide [getDoubleValue, readSign, readSpecial, readNumber, readMantissa, readExponent,
    NumberText.toRat]

/-- C5 as stated fails: the single line `abc def` has two tokens, neither a number; both
read as 0 and the line is ingested as the breakpoint `(0,0)`, whereas the text without
that line gives the empty curve. Likewise `2.0 abc` is ingested as `(2,0)`. -/
theorem nonnumeric_line_is_ingested :
    fromTokens (trim "abc def".toList) = ["abc".toList, "def".toList] ∧
    (readNumber "abc".toList).anyDigit = false ∧
    (readNumber "def".toList).anyDigit = false ∧
    (parseBreakpointText sampleStdSort initialState "abc def".toList).map
        (fun parsed => parsed.breakpoints) = some [{ time := 0, value := 0 }] ∧
    (parseBreakpointText sampleStdSort initialState []).map
        (fun parsed => parsed.breakpoints) = some [] ∧
    parseBreakpointText sampleStdSort initialState "abc def".toList
      ≠ parseBreakpointText sampleStdSort initialState [] ∧
    (parseBreakpointText sampleStdSort initialState "2.0 abc".toList).map
        (fun parsed => parsed.breakpoints) = some [{ time := 2, value := 0 }] := by
  have h1 : (parseBreakpointText sampleStdSort initialState "abc def".toList).map
      (fun parsed => parsed.breakpoints) = some [{ time := 0, value := 0 }] := by
    have hl : parseLines { breakpoints := [], lastTime := -1 } (fromLines "abc def".toList)
        = some { breakpoints := [{ time := 0, value := 0 }], lastTime := 0 } := by
      simp +decide [parseLines, fromLines, addLines, parseLine, trim, startsWithChar,
        fromTokens, addTokens, getDoubleValue, readSign, readSpecial, readNumber, readMantissa,
        readExponent, NumberText.toRat, jlimitDouble, jlimit]
    rw [parseBreakpointText_of_loop _ _ _ _ hl, Option.map_some']
    simp only []
    rw [sortVector_eq_of_strict sampleStdSort _ _ (List.Perm.refl _) (by simp)]
  have h2 : (parseBreakpointText sampleStdSort initialState []).map
      (fun parsed => parsed.breakpoints) = some [] := by
    have hl : parseLines { breakpoints := [], lastTime := -1 } (fromLines [])
        = some { breakpoints := [], lastTime := -1 } := rfl
    rw [parseBreakpointText_of_loop _ _ _ _ hl, Option.map_some']
    simp only []
    rw [sortVector_eq_of_strict sampleStdSort _ _ (List.Perm.refl _) (by simp)]
  refine ⟨by decide, by decide, by decide, h1, h2, ?_, ?_⟩
  · intro h
    rw [h, h2] at h1
    simp at h1
  · have hl : parseLines { breakpoints := [], lastTime := -1 } (fromLines "2.0 abc".toList)
        = some { breakpoints := [{ time := 2, value := 0 }], lastTime := 2 } := by
      simp +decide [parseLines, fromLines, addLines, parseLine, trim, startsWithChar,
        fromTokens, addTokens, getDoubleValue, readSign, readSpecial, readNumber, readMantissa,
        readExponent, NumberText.toRat, jlimitDouble, jlimit]
      norm_num
    rw [parseBreakpointText_of_loop _ _ _ _ hl, Option.map_some']
    simp only []
    rw [sortVector_eq_of_strict sampleStdSort _ _ (List.Perm.refl _) (by simp)]

/-- C5, amended: a line with fewer than two whitespace-separated tokens is skipped: it
adds no breakpoint and does not influence which other lines are accepted, so the text and
any text whose lines are the same without that line give the same object (or are both
outside the model, when another line carries NaN or an infinity). -/
theorem parseBreakpointText_skips_short_line (std : StdSort) (s : State) (text text2 : Text)
    (before after : List Text) (line : Text)
    (hlines : fromLines text = before ++ line :: after)
    (hlines2 : fromLines text2 = before ++ after)
    (hshort : (fromTokens (trim line)).length < 2) :
    parseBreakpointText std s text = parseBreakpointText std s text2 := by
  unfold parseBreakpointText
  rw [hlines, hlines2, parseLines_append, parseLines_append]
  cases parseLines { breakpoints := [], lastTime := -1 } before with
  | none => rfl
  | some next =>
    simp only [parseLines, parseLine_short next line hshort]

/-- C5 amended, evaluated: in `"0.0 -1.0\nabc\n5.0 1.0"` the line `abc` has one token and
the text parses like `"0.0 -1.0\n5.0 1.0"`. -/
theorem parseBreakpointText_skips_short_line_witness :
    parseBreakpointText sampleStdSort initialState "0.0 -1.0\nabc\n5.0 1.0".toList
      = parseBreakpointText sampleStdSort initialState "0.0 -1.0\n5.0 1.0".toList :=
  parseBreakpointText_skips_short_line sampleStdSort initialState
    "0.0 -1.0\nabc\n5.0 1.0".toList "0.0 -1.0\n5.0 1.0".toList ["0.0 -1.0".toList]
    ["5.0 1.0".toList] "abc".toList (by decide) (by decide) (by decide)

/-- Tokens that spell NaN or an infinity: a line with a NaN time is skipped (the
comparison with `lastTime` fails), an infinite value is limited to 1, and a line that
would push a NaN value or the time `+∞` leaves the model. -/
theorem nonfinite_tokens :
    getDoubleValue "nan".toList = DoubleValue.nan ∧
    getDoubleValue "-inf".toList = DoubleValue.negInf ∧
    parseLines { breakpoints := [], lastTime := -1 } (fromLines "nan 0.5".toList)
      = some { breakpoints := [], lastTime := -1 } ∧
    parseLines { breakpoints := [], lastTime := -1 } (fromLines "0 inf".toList)
      = some { breakpoints := [{ time := 0, value := 1 }], lastTime := 0 } ∧
    parseLines { breakpoints := [], lastTime := -1 } (fromLines "0 nan".toList) = none ∧
    parseLines { breakpoints := [], lastTime := -1 } (fromLines "inf 0".toList) = none := by
  refine ⟨by decide, by decide, ?_, ?_, ?_, ?_⟩
  · simp +decide [parseLines, fromLines, addLines, parseLine, trim, startsWithChar,
      fromTokens, addTokens, getDoubleValue, readSign, readSpecial]
  · simp +decide [parseLines, fromLines, addLines, parseLine, trim, startsWithChar,
      fromTokens, addTokens, getDoubleValue, readSign, readSpecial, readNumber, readMantissa,
      readExponent, NumberText.toRat, jlimitDouble]
  · simp +decide [parseLines, fromLines, addLines, parseLine, trim, startsWithChar,
      fromTokens, addTokens, getDoubleValue, readSign, readSpecial, readNumber, readMantissa,
      readExponent, NumberText.toRat, jlimitDouble]
  · simp +decide [parseLines, fromLines, addLines, parseLine, trim, startsWithChar,
      fromTokens, addTokens, getDoubleValue, readSign, readSpecial]
/-! ### Where the curve invariants hold and where they break -/

/-- The operations that end with `sortBreakpoints`, and `removeBreakpoint` on a sorted
curve, leave the curve sorted by time. -/
theorem sorted_after_sorting_operations (std : StdSort) (s : State) :
    (∀ text parsed, parseBreakpointText std s text = some parsed →
      SortedByTime parsed.breakpoints) ∧
    (∀ time value, SortedByTime (addBreakpoint std s time value).breakpoints) ∧
    (∀ index time value, SortedByTime s.breakpoints →
      SortedByTime (updateBreakpoint std s index time value).breakpoints) ∧
    (∀ index, SortedByTime s.breakpoints →
      SortedByTime (removeBreakpoint s index).breakpoints) ∧
    (∀ twoPi sin duration amplitude frequency,
      SortedByTime
        (generateSineCurve std twoPi sin s duration amplitude frequency).breakpoints) ∧
    (∀ nextFloat duration density,
      SortedByTime (generateRandomCurve std nextFloat s duration density).breakpoints) := by
  refine ⟨?_, ?_, ?_, ?_, ?_, ?_⟩
  · intro text parsed h
    obtain ⟨loop, _, hp⟩ := parseBreakpointText_some std s text parsed h
    rw [hp]
    exact sortVector_sorted std _
  · intro time value
    simp only [addBreakpoint, sortBreakpoints]
    exact sortVector_sorted std _
  · intro index time value hs
    unfold updateBreakpoint
    split_ifs
    · exact sortVector_sorted std _
    · exact hs
  · intro index hs
    unfold removeBreakpoint
    split_ifs
    · exact List.Pairwise.sublist (List.eraseIdx_sublist _ _) hs
    · exact hs
  · intro twoPi sin duration amplitude frequency
    simp only [generateSineCurve, sortBreakpoints]
    exact sortVector_sorted std _
  · intro nextFloat duration density
    simp only [generateRandomCurve, sortBreakpoints]
    exact sortVector_sorted std _

/-- C7 fails on the code: `generateRampCurve` does not sort, and with a negative duration
it leaves `[(0,-1),(-5,1)]`, which is not sorted by time. -/
theorem generateRampCurve_unsorted :
    (generateRampCurve initialState (-5) (-1) 1).breakpoints
      = [{ time := 0, value := -1 }, { time := -5, value := 1 }] ∧
    ¬ SortedByTime (generateRampCurve initialState (-5) (-1) 1).breakpoints := by
  refine ⟨rfl, ?_⟩
  simp [generateRampCurve, SortedByTime, timeOrdered, timeLess]

/-- The cursor after each mutator: reset by `parseBreakpointText`, the generators and an
in-range `removeBreakpoint`; left as it was by `addBreakpoint` and `updateBreakpoint`. -/
theorem cursor_after_mutators (std : StdSort) (s : State) :
    (∀ text parsed, parseBreakpointText std s text = some parsed →
      parsed.currentBreakpointIndex = 0) ∧
    (∀ duration start endValue,
      (generateRampCurve s duration start endValue).currentBreakpointIndex = 0) ∧
    (∀ twoPi sin duration amplitude frequency,
      (generateSineCurve std twoPi sin s duration amplitude
        frequency).currentBreakpointIndex = 0) ∧
    (∀ nextFloat duration density,
      (generateRandomCurve std nextFloat s duration density).currentBreakpointIndex = 0) ∧
    (∀ index, index < s.breakpoints.length →
      (removeBreakpoint s index).currentBreakpointIndex = 0) ∧
    (∀ time value,
      (addBreakpoint std s time value).currentBreakpointIndex = s.currentBreakpointIndex) ∧
    (∀ index time value,
      (updateBreakpoint std s index time value).currentBreakpointIndex
        = s.currentBreakpointIndex) := by
  refine ⟨fun text parsed h => ?_, fun _ _ _ => ?_, fun _ _ _ _ _ => ?_, fun _ _ _ => ?_, ?_,
    fun _ _ => ?_, ?_⟩
  · obtain ⟨loop, _, hp⟩ := parseBreakpointText_some std s text parsed h
    rw [hp]
  · simp only [generateRampCurve]
  · simp only [generateSineCurve]
  · simp only [generateRandomCurve]
  · intro index h
    simp [removeBreakpoint, h]
  · simp only [addBreakpoint, sortBreakpoints]
  · intro index time value
    unfold updateBreakpoint
    split_ifs
    · simp only [sortBreakpoints]
    · rfl

/-- With a sort that meets the standard, the result on a vector whose stable sort has
pairwise different times is that stable sort. -/
theorem sortVector_eq_insertionSort (std : StdSort) (bps : List Breakpoint)
    (hstrict : (bps.insertionSort timeOrdered).Pairwise (fun a b => a.time < b.time)) :
    sortVector std bps = bps.insertionSort timeOrdered :=
  sortVector_eq_of_strict std bps _ (List.perm_insertionSort timeOrdered bps).symm hstrict

/-- C8 fails on the code: with the curve `[(0,-1),(2,0),(5,1)]` and the cursor moved to 1
by a lookup at time 3, `addBreakpoint (1, 0.5)` and the in-range
`updateBreakpoint (0, 4, 0)` both mutate the curve and leave the cursor at 1. -/
theorem cursor_not_reset_by_add_update (std : StdSort) :
    (midPlayback std).breakpoints
      = [{ time := 0, value := -1 }, { time := 2, value := 0 }, { time := 5, value := 1 }] ∧
    (midPlayback std).currentBreakpointIndex = 1 ∧
    (addBreakpoint std (midPlayback std) 1 0.5).breakpoints
      = [{ time := 0, value := -1 }, { time := 1, value := 0.5 }, { time := 2, value := 0 },
         { time := 5, value := 1 }] ∧
    (addBreakpoint std (midPlayback std) 1 0.5).currentBreakpointIndex = 1 ∧
    (updateBreakpoint std (midPlayback std) 0 4 0).breakpoints
      = [{ time := 2, value := 0 }, { time := 4, value := 0 }, { time := 5, value := 1 }] ∧
    (updateBreakpoint std (midPlayback std) 0 4 0).currentBreakpointIndex = 1 := by
  have hm : midPlayback std
      = { breakpoints :=
            [{ time := 0, value := -1 }, { time := 2, value := 0 }, { time := 5, value := 1 }],
          breakpointsLoaded := true, currentTime := 0, timeIncrement := 0,
          currentBreakpointIndex := 1 } := by
    have hs : addBreakpoint std (generateRampCurve initialState 5 (-1) 1) 2 0
        = { breakpoints :=
              [{ time := 0, value := -1 }, { time := 2, value := 0 }, { time := 5, value := 1 }],
            breakpointsLoaded := true, currentTime := 0, timeIncrement := 0,
            currentBreakpointIndex := 0 } := by
      simp only [addBreakpoint, generateRampCurve, sortBreakpoints, initialState]
      rw [sortVector_eq_insertionSort std _
        (by norm_num [jmax, jlimit, timeOrdered, timeLess])]
      norm_num [jmax, jlimit, timeOrdered, timeLess]
    unfold midPlayback
    rw [hs]
    have ha : advanceCursor
        [{ time := 0, value := -1 }, { time := 2, value := 0 }, { time := 5, value := 1 }] 3 0
          = 1 := by
      rw [advanceCursor]; norm_num
      rw [advanceCursor]; norm_num
    simp only [getBreakpointValue, ha]
    norm_num
  rw [hm]
  refine ⟨rfl, rfl, ?_, rfl, ?_, ?_⟩
  · simp only [addBreakpoint, sortBreakpoints]
    rw [sortVector_eq_insertionSort std _
      (by norm_num [jmax, jlimit, timeOrdered, timeLess])]
    norm_num [jmax, jlimit, timeOrdered, timeLess]
  · simp only [updateBreakpoint, sortBreakpoints]
    norm_num
    rw [sortVector_eq_insertionSort std _
      (by norm_num [jmax, jlimit, timeOrdered, timeLess])]
    norm_num [jmax, jlimit, timeOrdered, timeLess]
  · norm_num [updateBreakpoint, sortBreakpoints]

theorem jmax_zero_nonneg (time : ℚ) : 0 ≤ jmax 0 time := by
  unfold jmax
  split_ifs with h
  · exact le_of_lt h
  · exact le_refl _

theorem jlimit_unit_range (value : ℚ) : -1 ≤ jlimit (-1) 1 value ∧ jlimit (-1) 1 value ≤ 1 := by
  unfold jlimit
  split_ifs with h1 h2
  · norm_num
  · norm_num
  · exact ⟨le_of_not_lt h1, le_of_not_lt h2⟩

/-- The interactive editing operations clamp: on a curve whose breakpoints are all in
range, `addBreakpoint`, `updateBreakpoint` and `removeBreakpoint` leave all breakpoints
in range, for any arguments. -/
theorem range_after_editing (std : StdSort) (s : State) (hs : ∀ b ∈ s.breakpoints, b.InRange) :
    (∀ time value, ∀ b ∈ (addBreakpoint std s time value).breakpoints, b.InRange) ∧
    (∀ index time value,
      ∀ b ∈ (updateBreakpoint std s index time value).breakpoints, b.InRange) ∧
    (∀ index, ∀ b ∈ (removeBreakpoint s index).breakpoints, b.InRange) := by
  have hnew : ∀ time value : ℚ,
      ({ time := jmax 0 time, value := jlimit (-1) 1 value } : Breakpoint).InRange :=
    fun time value => ⟨jmax_zero_nonneg time, jlimit_unit_range value⟩
  refine ⟨?_, ?_, ?_⟩
  · intro time value b hb
    simp only [addBreakpoint, sortBreakpoints] at hb
    have hb2 := (sortVector_perm std _).subset hb
    rcases List.mem_append.mp hb2 with h | h
    · exact hs b h
    · rw [List.mem_singleton.mp h]; exact hnew time value
  · intro index time value b hb
    unfold updateBreakpoint at hb
    split_ifs at hb with hi
    · simp only [sortBreakpoints] at hb
      have hb2 := (sortVector_perm std _).subset hb
      rcases List.mem_or_eq_of_mem_set hb2 with h | h
      · exact hs b h
      · rw [h]; exact hnew time value
    · exact hs b hb
  · intro index b hb
    unfold removeBreakpoint at hb
    split_ifs at hb with hi
    · exact hs b ((List.eraseIdx_sublist _ _).subset hb)
    · exact hs b hb

/-- C9 fails on the code: `parseBreakpointText` does not clamp the time and accepts any
first time from -1 up, so the text `-0.5 0.3` leaves a breakpoint with a negative time;
`generateRampCurve` clamps nothing, so `generateRampCurve (5, -3, 3)` leaves the values
-3 and 3. -/
theorem breakpoint_range_violated (std : StdSort) :
    (parseBreakpointText std initialState "-0.5 0.3".toList).map
        (fun parsed => parsed.breakpoints)
      = some [{ time := -1 / 2, value := 3 / 10 }] ∧
    (∃ parsed, parseBreakpointText std initialState "-0.5 0.3".toList = some parsed ∧
      ¬ (∀ b ∈ parsed.breakpoints, b.InRange)) ∧
    (generateRampCurve initialState 5 (-3) 3).breakpoints
      = [{ time := 0, value := -3 }, { time := 5, value := 3 }] ∧
    ¬ (∀ b ∈ (generateRampCurve initialState 5 (-3) 3).breakpoints, b.InRange) := by
  have hl : parseLines { breakpoints := [], lastTime := -1 } (fromLines "-0.5 0.3".toList)
      = some { breakpoints := [{ time := -1 / 2, value := 3 / 10 }], lastTime := -1 / 2 } := by
    simp +decide [parseLines, fromLines, addLines, parseLine, trim, startsWithChar,
      fromTokens, addTokens, getDoubleValue, readSign, readSpecial, readNumber, readMantissa,
      readExponent, NumberText.toRat, jlimitDouble, jlimit]
    norm_num
  have hs : sortVector std [{ time := -1 / 2, value := 3 / 10 }]
      = [{ time := -1 / 2, value := 3 / 10 }] :=
    sortVector_eq_of_strict std _ _ (List.Perm.refl _) (List.pairwise_singleton _ _)
  have h1 := parseBreakpointText_of_loop std initialState "-0.5 0.3".toList _ hl
  simp only [hs] at h1
  refine ⟨?_, ⟨_, h1, ?_⟩, rfl, ?_⟩
  · rw [h1]; rfl
  · norm_num [Breakpoint.InRange]
  · norm_num [generateRampCurve, Breakpoint.InRange]

/-- The text `getBreakpointText` emits for the curve `[(0,-3),(5,3)]`. -/
theorem getBreakpointText_ramp_out_of_range :
    getBreakpointText sampleTimestamp (generateRampCurve initialState 5 (-3) 3)
      = ("# Breakpoint file for UberPanner\n" ++ "# Format: time(seconds) value(-1.0 to 1.0)\n"
          ++ "# Generated: 30 Oct 2026 10:56:00am\n" ++ "# Lines starting with '#' are ignored\n\n"
          ++ "0.000 -3.000\n" ++ "5.000 3.000\n").toList := by
  have h1 : stringFromDouble (-3) 3 = "-3.000".toList := by
    norm_num [stringFromDouble, roundHalfEven, padZeros]; decide
  have h2 : stringFromDouble 3 3 = "3.000".toList := by
    norm_num [stringFromDouble, roundHalfEven, padZeros]; decide
  have h3 : stringFromDouble 5 3 = "5.000".toList := by
    norm_num [stringFromDouble, roundHalfEven, padZeros]; decide
  have h4 : stringFromDouble 0 3 = "0.000".toList := by
    norm_num [stringFromDouble, roundHalfEven, padZeros]; decide
  simp only [getBreakpointText, generateRampCurve, List.map_cons, List.map_nil, h1, h2, h3, h4,
    sampleTimestamp]
  rfl

/-- The text `getBreakpointText` emits for the curve `[(0,-1),(-5,1)]`. -/
theorem getBreakpointText_ramp_unsorted :
    getBreakpointText sampleTimestamp (generateRampCurve initialState (-5) (-1) 1)
      = ("# Breakpoint file for UberPanner\n" ++ "# Format: time(seconds) value(-1.0 to 1.0)\n"
          ++ "# Generated: 30 Oct 2026 10:56:00am\n" ++ "# Lines starting with '#' are ignored\n\n"
          ++ "0.000 -1.000\n" ++ "-5.000 1.000\n").toList := by
  have h1 : stringFromDouble (-1) 3 = "-1.000".toList := by
    norm_num [stringFromDouble, roundHalfEven, padZeros]; decide
  have h2 : stringFromDouble 1 3 = "1.000".toList := by
    norm_num [stringFromDouble, roundHalfEven, padZeros]; decide
  have h3 : stringFromDouble (-5) 3 = "-5.000".toList := by
    norm_num [stringFromDouble, roundHalfEven, padZeros]; decide
  have h4 : stringFromDouble 0 3 = "0.000".toList := by
    norm_num [stringFromDouble, roundHalfEven, padZeros]; decide
  simp only [getBreakpointText, generateRampCurve, List.map_cons, List.map_nil, h1, h2, h3, h4,
    sampleTimestamp]
  rfl

set_option maxRecDepth 100000 in
/-- C6 fails on the code: the curve `[(0,-3),(5,3)]` of `generateRampCurve (5, -3, 3)` comes
back from its own text as `[(0,-1),(5,1)]` (values clamped on ingestion), and the curve
`[(0,-1),(-5,1)]` of `generateRampCurve (-5, -1, 1)` comes back as `[(0,-1)]` (the line
with the lower time is dropped). -/
theorem roundtrip_fails_after_generateRampCurve (std : StdSort) :
    (generateRampCurve initialState 5 (-3) 3).breakpoints
      = [{ time := 0, value := -3 }, { time := 5, value := 3 }] ∧
    (parseBreakpointText std (generateRampCurve initialState 5 (-3) 3)
      (getBreakpointText sampleTimestamp
        (generateRampCurve initialState 5 (-3) 3))).map (fun parsed => parsed.breakpoints)
      = some [{ time := 0, value := -1 }, { time := 5, value := 1 }] ∧
    (generateRampCurve initialState (-5) (-1) 1).breakpoints
      = [{ time := 0, value := -1 }, { time := -5, value := 1 }] ∧
    (parseBreakpointText std (generateRampCurve initialState (-5) (-1) 1)
      (getBreakpointText sampleTimestamp
        (generateRampCurve initialState (-5) (-1) 1))).map (fun parsed => parsed.breakpoints)
      = some [{ time := 0, value := -1 }] := by
  refine ⟨rfl, ?_, rfl, ?_⟩
  · rw [getBreakpointText_ramp_out_of_range]
    have hl : parseLines { breakpoints := [], lastTime := -1 }
        (fromLines ("# Breakpoint file for UberPanner\n"
          ++ "# Format: time(seconds) value(-1.0 to 1.0)\n"
          ++ "# Generated: 30 Oct 2026 10:56:00am\n"
          ++ "# Lines starting with '#' are ignored\n\n"
          ++ "0.000 -3.000\n" ++ "5.000 3.000\n").toList)
        = some { breakpoints := [{ time := 0, value := -1 }, { time := 5, value := 1 }],
                 lastTime := 5 } := by
      simp +decide [parseLines, fromLines, addLines, parseLine, trim, startsWithChar,
        fromTokens, addTokens, getDoubleValue, readSign, readSpecial, readNumber,
        readMantissa, readExponent, NumberText.toRat, jlimitDouble, jlimit]
      norm_num
    rw [parseBreakpointText_of_loop std _ _ _ hl,
      sortVector_eq_of_strict std _ [{ time := 0, value := -1 }, { time := 5, value := 1 }]
        (List.Perm.refl _) (by norm_num)]
    rfl
  · rw [getBreakpointText_ramp_unsorted]
    have hl : parseLines { breakpoints := [], lastTime := -1 }
        (fromLines ("# Breakpoint file for UberPanner\n"
          ++ "# Format: time(seconds) value(-1.0 to 1.0)\n"
          ++ "# Generated: 30 Oct 2026 10:56:00am\n"
          ++ "# Lines starting with '#' are ignored\n\n"
          ++ "0.000 -1.000\n" ++ "-5.000 1.000\n").toList)
        = some { breakpoints := [{ time := 0, value := -1 }], lastTime := 0 } := by
      simp +decide [parseLines, fromLines, addLines, parseLine, trim, startsWithChar,
        fromTokens, addTokens, getDoubleValue, readSign, readSpecial, readNumber,
        readMantissa, readExponent, NumberText.toRat, jlimitDouble, jlimit]
      norm_num
    rw [parseBreakpointText_of_loop std _ _ _ hl,
      sortVector_eq_of_strict std _ [{ time := 0, value := -1 }]
        (List.Perm.refl _) (List.pairwise_singleton _ _)]
    rfl

/-- The lines of the default text leave the records `(0,-1)` and `(5,1)`. -/
theorem parseLines_defaultText :
    parseLines { breakpoints := [], lastTime := -1 } (fromLines defaultText)
      = some { breakpoints := [{ time := 0, value := -1 }, { time := 5, value := 1 }],
               lastTime := 5 } := by
  simp +decide [defaultText, parseLines, fromLines, addLines, parseLine, trim, startsWithChar,
    fromTokens, addTokens, getDoubleValue, readSign, readSpecial, readNumber,
    readMantissa, readExponent, NumberText.toRat, jlimitDouble, jlimit]
  norm_num

/-- The constructed object holds the curve `[(0,-1),(5,1)]`, loaded, with the cursor at 0. -/
theorem constructed_eq (std : StdSort) : constructed std = some leftToRightCurve := by
  unfold constructed setBreakpointText
  rw [parseBreakpointText_of_loop std _ _ _ parseLines_defaultText,
    sortVector_eq_of_strict std _ [{ time := 0, value := -1 }, { time := 5, value := 1 }]
      (List.Perm.refl _) (by norm_num)]
  rfl
/-! ### Lookup: small curves, cursor movement, determinism -/

/-- The early return of `getBreakpointValue`: fewer than 2 breakpoints. -/
theorem getBreakpointValue_of_short (s : State) (t : ℚ) (h : s.breakpoints.length < 2) :
    getBreakpointValue s t = (0, s) := by
  unfold getBreakpointValue
  rw [dif_pos h]

/-- C13: on a curve with fewer than 2 breakpoints `getBreakpointValue` returns 0 for every
query time and every cursor, and leaves the object (the cursor with it) as it was. -/
theorem getBreakpointValue_undriven (s : State) (t : ℚ) (h : s.breakpoints.length < 2) :
    getBreakpointValue s t = (0, s) := by
  unfold getBreakpointValue
  rw [dif_pos h]

/-- C13, evaluated: the empty curve and a single breakpoint `(3, 1/2)` with the cursor
at 4 both give 0 at time 3 and stay as they were. -/
theorem getBreakpointValue_undriven_witness :
    getBreakpointValue initialState 3 = (0, initialState) ∧
    getBreakpointValue singleBreakpointCurve 3 = (0, singleBreakpointCurve) ∧
    (getBreakpointValue singleBreakpointCurve 3).2.currentBreakpointIndex = 4 :=
  ⟨getBreakpointValue_undriven initialState 3 (by decide),
   getBreakpointValue_undriven singleBreakpointCurve 3 (by decide),
   by rw [getBreakpointValue_undriven singleBreakpointCurve 3 (by decide)]; rfl⟩

/-- C14: at position 0 `linearPan` returns exactly `(0.5, 0.5)`, and over the reals
`constantPowerPan` returns `(√2/2, √2/2)`, which is within `0.0001` of `0.7071`. -/
theorem pan_at_center :
    (linearPan (0 : ℚ)).left = 0.5 ∧ (linearPan (0 : ℚ)).right = 0.5 ∧
    (constantPowerPan Real.pi (Real.sqrt 2) Real.sin Real.cos 0).left = Real.sqrt 2 / 2 ∧
    (constantPowerPan Real.pi (Real.sqrt 2) Real.sin Real.cos 0).right = Real.sqrt 2 / 2 ∧
    |Real.sqrt 2 / 2 - 0.7071| < 0.0001 := by
  refine ⟨by norm_num [linearPan], by norm_num [linearPan], ?_, ?_, ?_⟩
  · simp only [constantPowerPan, zero_mul, Real.sin_zero, Real.cos_zero]
    norm_num; ring
  · simp only [constantPowerPan, zero_mul, Real.sin_zero, Real.cos_zero]
    norm_num; ring
  · have h1 : (1.4140 : ℝ) < Real.sqrt 2 := by
      rw [Real.lt_sqrt (by norm_num)]; norm_num
    have h2 : Real.sqrt 2 < (1.4144 : ℝ) := by
      rw [Real.sqrt_lt' (by norm_num)]; norm_num
    rw [abs_lt]
    constructor
    · norm_num at h1 ⊢; linarith
    · norm_num at h2 ⊢; linarith

/-- C15: for every duration, start and end and every prior object, `generateRampCurve`
leaves exactly the two breakpoints `(0, start)` and `(duration, end)` in that order, the
loaded flag set and the cursor at 0; for `(5, -1, 1)` this is `[(0,-1),(5,1)]`. -/
theorem generateRampCurve_exact (s : State) (duration start endValue : ℚ) :
    (generateRampCurve s duration start endValue).breakpoints
      = [{ time := 0, value := start }, { time := duration, value := endValue }] ∧
    (generateRampCurve s duration start endValue).breakpointsLoaded = true ∧
    (generateRampCurve s duration start endValue).currentBreakpointIndex = 0 ∧
    (generateRampCurve s 5 (-1) 1).breakpoints
      = [{ time := 0, value := -1 }, { time := 5, value := 1 }] :=
  ⟨rfl, rfl, rfl, rfl⟩

/-- The object after `getBreakpointValue` on a curve with at least 2 breakpoints: only the
cursor changes, to where the loop stops. -/
theorem getBreakpointValue_snd (s : State) (t : ℚ) (hlen : 2 ≤ s.breakpoints.length) :
    (getBreakpointValue s t).2
      = { s with currentBreakpointIndex :=
            advanceCursor s.breakpoints t s.currentBreakpointIndex } := by
  unfold getBreakpointValue
  rw [dif_neg (by omega)]
  simp only
  split_ifs <;> rfl

/-- The value `getBreakpointValue` returns, in terms of where the loop stops. -/
theorem getBreakpointValue_fst (s : State) (t : ℚ) :
    (getBreakpointValue s t).1
      = segmentValue s.breakpoints t (advanceCursor s.breakpoints t s.currentBreakpointIndex) := by
  unfold getBreakpointValue segmentValue
  by_cases hsz : s.breakpoints.length < 2
  · rw [dif_pos hsz, dif_pos hsz]
  · rw [dif_neg hsz, dif_neg hsz]
    simp only
    split_ifs <;> rfl

/-- `getBreakpointValue` never changes the vector, the loaded flag, the published time or
the time increment. -/
theorem getBreakpointValue_keeps (s : State) (t : ℚ) :
    (getBreakpointValue s t).2.breakpoints = s.breakpoints ∧
    (getBreakpointValue s t).2.breakpointsLoaded = s.breakpointsLoaded ∧
    (getBreakpointValue s t).2.currentTime = s.currentTime ∧
    (getBreakpointValue s t).2.timeIncrement = s.timeIncrement := by
  by_cases hsz : s.breakpoints.length < 2
  · rw [getBreakpointValue_of_short s t hsz]
    exact ⟨rfl, rfl, rfl, rfl⟩
  · rw [getBreakpointValue_snd s t (by omega)]
    exact ⟨rfl, rfl, rfl, rfl⟩

/-- C18 as stated fails: on `[(0,-1),(5,1),(10,0)]` with the cursor at 0, a lookup at
time 5 leaves the cursor at 0, which is not the last index, and the breakpoint following
the cursor has time 5, not strictly greater than the query time. -/
theorem cursor_stops_at_equal_time :
    (getBreakpointValue threePointCurve 5).2.currentBreakpointIndex = 0 ∧
    threePointCurve.breakpoints.length = 3 ∧
    (threePointCurve.breakpoints.map fun b => b.time) = [0, 5, 10] ∧
    ¬ ((getBreakpointValue threePointCurve 5).2.currentBreakpointIndex + 1
          = threePointCurve.breakpoints.length ∨
       ∃ b, threePointCurve.breakpoints[
          (getBreakpointValue threePointCurve 5).2.currentBreakpointIndex + 1]? = some b
          ∧ 5 < b.time) := by
  have h : (getBreakpointValue threePointCurve 5).2.currentBreakpointIndex = 0 := by
    rw [getBreakpointValue_snd threePointCurve 5 (by decide)]
    show advanceCursor threePointCurve.breakpoints 5 0 = 0
    rw [advanceCursor]
    norm_num [threePointCurve]
  refine ⟨h, rfl, rfl, ?_⟩
  rw [h]
  norm_num [threePointCurve]

/-- C18, amended: on a curve with at least 2 breakpoints, for every cursor and every query
time `t`, after `getBreakpointValue` the cursor is not smaller than before, it stays below
the length when it was, every breakpoint it has moved onto has time strictly below `t`, and
either the cursor is at (or beyond) the last index or the breakpoint following the cursor
has time greater than or equal to `t`. -/
theorem cursor_advance_rule (s : State) (t : ℚ) (hlen : 2 ≤ s.breakpoints.length) :
    s.currentBreakpointIndex ≤ (getBreakpointValue s t).2.currentBreakpointIndex ∧
    (s.currentBreakpointIndex < s.breakpoints.length →
      (getBreakpointValue s t).2.currentBreakpointIndex < s.breakpoints.length) ∧
    (∀ k (hk : k < s.breakpoints.length), s.currentBreakpointIndex < k →
      k ≤ (getBreakpointValue s t).2.currentBreakpointIndex → s.breakpoints[k].time < t) ∧
    (s.breakpoints.length ≤ (getBreakpointValue s t).2.currentBreakpointIndex + 1 ∨
      ∃ h : (getBreakpointValue s t).2.currentBreakpointIndex + 1 < s.breakpoints.length,
        t ≤ s.breakpoints[(getBreakpointValue s t).2.currentBreakpointIndex + 1].time) := by
  rw [getBreakpointValue_snd s t hlen]
  obtain ⟨h1, h2, h3, h4⟩ := advanceCursor_spec s.breakpoints t s.currentBreakpointIndex
  refine ⟨h1, h2, h3, ?_⟩
  by_cases h : advanceCursor s.breakpoints t s.currentBreakpointIndex + 1 < s.breakpoints.length
  · exact Or.inr ⟨h, le_of_not_lt (h4 h)⟩
  · exact Or.inl (by simpa using h)

/-- C18 amended, evaluated on `[(0,-1),(5,1),(10,0)]` from the cursor 0: a lookup at time
7 moves the cursor to 1. -/
theorem cursor_advance_rule_witness :
    (getBreakpointValue threePointCurve 7).2.currentBreakpointIndex = 1 := by
  obtain ⟨-, h2, h3, h4⟩ := cursor_advance_rule threePointCurve 7 (by decide)
  have hc := h2 (by decide)
  generalize (getBreakpointValue threePointCurve 7).2.currentBreakpointIndex = c at *
  have hc3 : c < 3 := hc
  interval_cases c
  · rcases h4 with h | ⟨_, h⟩
    · simp [threePointCurve] at h
    · norm_num [threePointCurve] at h
  · rfl
  · have := h3 2 (by decide) (by decide) (le_refl _)
    norm_num [threePointCurve] at this

/-- A later query continues the loop from where an earlier, not larger, query stopped. -/
theorem advanceCursor_resume (bps : List Breakpoint) (t1 t2 : ℚ) (h : t1 ≤ t2) (idx : Nat) :
    advanceCursor bps t2 (advanceCursor bps t1 idx) = advanceCursor bps t2 idx := by
  induction idx using advanceCursor.induct bps t1 with
  | case1 idx hlt hgt ih =>
    rw [advanceCursor.eq_1 bps t1 idx, dif_pos hlt, if_pos hgt, ih]
    conv_rhs => rw [advanceCursor]
    rw [dif_pos hlt, if_pos (lt_of_lt_of_le hgt h)]
  | case2 idx hlt hgt =>
    rw [advanceCursor.eq_1 bps t1 idx, dif_pos hlt, if_neg hgt]
  | case3 idx hlt =>
    rw [advanceCursor.eq_1 bps t1 idx, dif_neg hlt]

/-- Lookups in order from a cursor that is as good as the cursor 0 for every query time
from `t0` on: the values are those of single lookups from the cursor 0. -/
theorem lookupInOrder_from (s : State) (t0 : ℚ) (ts : List ℚ)
    (hcur : ∀ t, t0 ≤ t → advanceCursor s.breakpoints t s.currentBreakpointIndex
      = advanceCursor s.breakpoints t 0)
    (hsorted : (t0 :: ts).Sorted (fun a b => a ≤ b)) :
    (lookupInOrder s ts).1
      = ts.map fun t => segmentValue s.breakpoints t (advanceCursor s.breakpoints t 0) := by
  induction ts generalizing s t0 with
  | nil => rfl
  | cons t ts ih =>
    have h0t : t0 ≤ t := List.rel_of_sorted_cons hsorted t (List.mem_cons_self _ _)
    have htail : (t :: ts).Sorted (fun a b => a ≤ b) := List.Sorted.of_cons hsorted
    have hadv := hcur t h0t
    have hkeep := (getBreakpointValue_keeps s t).1
    simp only [lookupInOrder, List.map_cons]
    rw [getBreakpointValue_fst, hadv]
    congr 1
    by_cases hsz : s.breakpoints.length < 2
    · have hs : (getBreakpointValue s t).2 = s := by rw [getBreakpointValue_of_short s t hsz]
      rw [hs]
      exact ih s t0 hcur (List.sorted_cons.mpr ⟨fun b hb =>
        le_trans h0t (List.rel_of_sorted_cons htail b hb), htail.of_cons⟩)
    · have h2 := ih (getBreakpointValue s t).2 t (by
        intro u htu
        rw [hkeep, getBreakpointValue_snd s t (by omega)]
        show advanceCursor s.breakpoints u
          (advanceCursor s.breakpoints t s.currentBreakpointIndex) = _
        rw [hadv, advanceCursor_resume _ _ _ htu]) htail
      rw [hkeep] at h2
      exact h2

/-- C19: query times issued in non-decreasing order from a reset cursor return, one by
one, what a single `getBreakpointValue` from the reset cursor returns; and repeating a
query time, from any cursor, returns the same value and leaves the cursor where it was. -/
theorem lookupInOrder_deterministic (s : State) (ts : List ℚ)
    (hcur : s.currentBreakpointIndex = 0) (hsorted : ts.Sorted (fun a b => a ≤ b)) :
    (lookupInOrder s ts).1 = ts.map (fun t => (getBreakpointValue s t).1) ∧
    ∀ (s2 : State) (t : ℚ),
      getBreakpointValue (getBreakpointValue s2 t).2 t = getBreakpointValue s2 t := by
  constructor
  · have hmap : (fun t => (getBreakpointValue s t).1)
        = fun t => segmentValue s.breakpoints t (advanceCursor s.breakpoints t 0) := by
      funext t
      rw [getBreakpointValue_fst, hcur]
    rw [hmap]
    cases ts with
    | nil => rfl
    | cons t rest =>
      exact lookupInOrder_from s t (t :: rest) (fun u _ => by rw [hcur])
        (List.sorted_cons.mpr ⟨fun b hb => by
          rcases List.mem_cons.mp hb with e | e
          · rw [e]
          · exact List.rel_of_sorted_cons hsorted b e, hsorted⟩)
  · intro s2 t
    by_cases hsz : s2.breakpoints.length < 2
    · rw [getBreakpointValue_of_short s2 t hsz, getBreakpointValue_of_short s2 t hsz]
    · have hsnd := getBreakpointValue_snd s2 t (by omega)
      have hkeep := (getBreakpointValue_keeps s2 t).1
      have hidem : advanceCursor s2.breakpoints t
          (advanceCursor s2.breakpoints t s2.currentBreakpointIndex)
            = advanceCursor s2.breakpoints t s2.currentBreakpointIndex :=
        advanceCursor_resume _ t t (le_refl _) _
      apply Prod.ext
      · rw [getBreakpointValue_fst, getBreakpointValue_fst, hkeep, hsnd]
        show segmentValue s2.breakpoints t (advanceCursor s2.breakpoints t
          (advanceCursor s2.breakpoints t s2.currentBreakpointIndex)) = _
        rw [hidem]
      · rw [getBreakpointValue_snd _ t (by rw [hkeep]; omega), hsnd]
        show ({ s2 with currentBreakpointIndex := (advanceCursor s2.breakpoints t
          (advanceCursor s2.breakpoints t s2.currentBreakpointIndex)) } : State) = _
        rw [hidem]

/-- C19, evaluated on `[(0,-1),(5,1),(10,0)]`: the queries 0, 5, 5, 7, 12 in order return
-1, 1, 1, 3/5, 0. -/
theorem lookupInOrder_deterministic_witness :
    (lookupInOrder threePointCurve [0, 5, 5, 7, 12]).1 = [-1, 1, 1, 3 / 5, 0] := by
  have hs : ([0, 5, 5, 7, 12] : List ℚ).Sorted (fun a b => a ≤ b) := by
    simp [List.Sorted]
    norm_num
  have hv : ∀ (t : ℚ) (i : Nat), advanceCursor threePointCurve.breakpoints t 0 = i →
      (getBreakpointValue threePointCurve t).1
        = segmentValue threePointCurve.breakpoints t i := by
    intro t i hi
    rw [getBreakpointValue_fst, ← hi]
    rfl
  rw [(lookupInOrder_deterministic threePointCurve _ rfl hs).1]
  simp only [List.map_cons, List.map_nil]
  rw [hv 0 0 (by rw [advanceCursor]; norm_num [threePointCurve]),
    hv 5 0 (by rw [advanceCursor]; norm_num [threePointCurve]),
    hv 7 1 (by rw [advanceCursor]; norm_num [threePointCurve]; rw [advanceCursor]; norm_num),
    hv 12 2 (by
      rw [advanceCursor]; norm_num [threePointCurve]
      rw [advanceCursor]; norm_num
      rw [advanceCursor]; norm_num)]
  norm_num [segmentValue, threePointCurve]

/-! ### The sample loops -/

theorem sourceAfter_succ {σ : Type} (nextPan : σ → ℚ × σ) (source : σ) (i : Nat) :
    sourceAfter nextPan source (i + 1) = sourceAfter nextPan (nextPan source).2 i := by
  induction i with
  | zero => rfl
  | succ i ih =>
    show (nextPan (sourceAfter nextPan source (i + 1))).2 = _
    rw [ih]
    rfl

theorem panOfSample_succ {σ : Type} (nextPan : σ → ℚ × σ) (source : σ) (i : Nat) :
    panOfSample nextPan source (i + 1) = panOfSample nextPan (nextPan source).2 i := by
  unfold panOfSample
  rw [sourceAfter_succ]

/-- The mono loop: the source after the loop, and every sample of the buffer after it. -/
theorem monoLoop_spec {σ : Type} (nextPan : σ → ℚ × σ) (gains : ℚ → PanGains ℚ)
    (remaining i0 : Nat) (source : σ) (buffer : AudioBuffer) :
    (monoLoop nextPan gains remaining i0 source buffer).1
      = sourceAfter nextPan source remaining ∧
    (monoLoop nextPan gains remaining i0 source buffer).2.numSamples = buffer.numSamples ∧
    ∀ ch i, (monoLoop nextPan gains remaining i0 source buffer).2.data ch i =
      if i0 ≤ i ∧ i < i0 + remaining then
        if ch = 0 then buffer.data 0 i * (gains (panOfSample nextPan source (i - i0))).left
        else if ch = 1 then
          buffer.data 0 i * (gains (panOfSample nextPan source (i - i0))).right
        else buffer.data ch i
      else buffer.data ch i := by
  induction remaining generalizing i0 source buffer with
  | zero =>
    refine ⟨rfl, rfl, ?_⟩
    intro ch i
    rw [if_neg (by omega)]
    rfl
  | succ n ih =>
    obtain ⟨h1, h2, h3⟩ := ih (i0 + 1) (nextPan source).2
      ((buffer.setSample 0 i0 (buffer.data 0 i0 * (gains (nextPan source).1).left)).setSample
        1 i0 (buffer.data 0 i0 * (gains (nextPan source).1).right))
    refine ⟨?_, ?_, ?_⟩
    · rw [sourceAfter_succ]
      exact h1
    · exact h2
    · intro ch i
      show (monoLoop nextPan gains n (i0 + 1) (nextPan source).2 _).2.data ch i = _
      rw [h3 ch i]
      by_cases hi : i = i0
      · subst hi
        rw [if_neg (show ¬ (i + 1 ≤ i ∧ i < i + 1 + n) by omega),
          if_pos (show i ≤ i ∧ i < i + (n + 1) by omega)]
        simp only [AudioBuffer.setSample, Nat.sub_self, panOfSample, sourceAfter]
        by_cases h0 : ch = 0
        · subst h0; simp
        · by_cases h1 : ch = 1
          · subst h1; simp
          · simp [h0, h1]
      · by_cases hin : i0 + 1 ≤ i ∧ i < i0 + 1 + n
        · rw [if_pos hin, if_pos (show i0 ≤ i ∧ i < i0 + (n + 1) by omega)]
          have hsub : i - i0 = (i - (i0 + 1)) + 1 := by omega
          rw [hsub, panOfSample_succ]
          simp [AudioBuffer.setSample, hi]
        · rw [if_neg hin, if_neg (show ¬ (i0 ≤ i ∧ i < i0 + (n + 1)) by omega)]
          simp [AudioBuffer.setSample, hi]

/-- The stereo loop: the source after the loop, and every sample of the buffer after it. -/
theorem stereoLoop_spec {σ : Type} (nextPan : σ → ℚ × σ) (gains : ℚ → PanGains ℚ)
    (remaining i0 : Nat) (source : σ) (buffer : AudioBuffer) :
    (stereoLoop nextPan gains remaining i0 source buffer).1
      = sourceAfter nextPan source remaining ∧
    (stereoLoop nextPan gains remaining i0 source buffer).2.numSamples = buffer.numSamples ∧
    ∀ ch i, (stereoLoop nextPan gains remaining i0 source buffer).2.data ch i =
      if i0 ≤ i ∧ i < i0 + remaining then
        if ch = 0 then buffer.data 0 i * (gains (panOfSample nextPan source (i - i0))).left
        else if ch = 1 then
          buffer.data 1 i * (gains (panOfSample nextPan source (i - i0))).right
        else buffer.data ch i
      else buffer.data ch i := by
  induction remaining generalizing i0 source buffer with
  | zero =>
    refine ⟨rfl, rfl, ?_⟩
    intro ch i
    rw [if_neg (by omega)]
    rfl
  | succ n ih =>
    obtain ⟨h1, h2, h3⟩ := ih (i0 + 1) (nextPan source).2
      ((buffer.setSample 0 i0 (buffer.data 0 i0 * (gains (nextPan source).1).left)).setSample
        1 i0 (buffer.data 1 i0 * (gains (nextPan source).1).right))
    refine ⟨?_, ?_, ?_⟩
    · rw [sourceAfter_succ]
      exact h1
    · exact h2
    · intro ch i
      show (stereoLoop nextPan gains n (i0 + 1) (nextPan source).2 _).2.data ch i = _
      rw [h3 ch i]
      by_cases hi : i = i0
      · subst hi
        rw [if_neg (show ¬ (i + 1 ≤ i ∧ i < i + 1 + n) by omega),
          if_pos (show i ≤ i ∧ i < i + (n + 1) by omega)]
        simp only [AudioBuffer.setSample, Nat.sub_self, panOfSample, sourceAfter]
        by_cases h0 : ch = 0
        · subst h0; simp
        · by_cases h1 : ch = 1
          · subst h1; simp
          · simp [h0, h1]
      · by_cases hin : i0 + 1 ≤ i ∧ i < i0 + 1 + n
        · rw [if_pos hin, if_pos (show i0 ≤ i ∧ i < i0 + (n + 1) by omega)]
          have hsub : i - i0 = (i - (i0 + 1)) + 1 := by omega
          rw [hsub, panOfSample_succ]
          simp [AudioBuffer.setSample, hi]
        · rw [if_neg hin, if_neg (show ¬ (i0 ≤ i ∧ i < i0 + (n + 1)) by omega)]
          simp [AudioBuffer.setSample, hi]

/-- The clearing loop zeroes the first `numSamples` samples of the channels
`ch0, ..., ch0 + count - 1` and leaves every other sample. -/
theorem clearChannels_spec (numSamples count ch0 : Nat) (buffer : AudioBuffer) :
    (clearChannels numSamples count ch0 buffer).numSamples = buffer.numSamples ∧
    ∀ ch i, (clearChannels numSamples count ch0 buffer).data ch i =
      if ch0 ≤ ch ∧ ch < ch0 + count ∧ i < numSamples then 0 else buffer.data ch i := by
  induction count generalizing ch0 buffer with
  | zero =>
    refine ⟨rfl, ?_⟩
    intro ch i
    rw [if_neg (by omega)]
    rfl
  | succ n ih =>
    obtain ⟨h1, h2⟩ := ih (ch0 + 1) (buffer.clear ch0 numSamples)
    refine ⟨h1, ?_⟩
    intro ch i
    show (clearChannels numSamples n (ch0 + 1) (buffer.clear ch0 numSamples)).data ch i = _
    rw [h2 ch i]
    by_cases hc : ch = ch0
    · subst hc
      rw [if_neg (show ¬ (ch + 1 ≤ ch ∧ ch < ch + 1 + n ∧ i < numSamples) by omega)]
      by_cases hi : i < numSamples
      · rw [if_pos (show ch ≤ ch ∧ ch < ch + (n + 1) ∧ i < numSamples from
          ⟨le_refl _, by omega, hi⟩)]
        simp [AudioBuffer.clear, hi]
      · rw [if_neg (show ¬ (ch ≤ ch ∧ ch < ch + (n + 1) ∧ i < numSamples) by tauto)]
        simp [AudioBuffer.clear, hi]
    · by_cases hin : ch0 + 1 ≤ ch ∧ ch < ch0 + 1 + n ∧ i < numSamples
      · rw [if_pos hin, if_pos (show ch0 ≤ ch ∧ ch < ch0 + (n + 1) ∧ i < numSamples from
          ⟨by omega, by omega, hin.2.2⟩)]
      · rw [if_neg hin, if_neg (show ¬ (ch0 ≤ ch ∧ ch < ch0 + (n + 1) ∧ i < numSamples) by
          omega)]
        simp [AudioBuffer.clear, hc]

/-! ### The block -/

/-- Every sample of the buffer after a block with one input channel and at least two
output channels. -/
theorem processBlock_mono_data (math : FloatMath) (host : Host) (p : Renderer)
    (buffer : AudioBuffer) (hout : 2 ≤ host.totalNumOutputChannels)
    (hin : host.totalNumInputChannels = 1) (ch i : Nat) :
    (processBlock math host p buffer).2.data ch i =
      if 2 ≤ ch ∧ ch < host.totalNumOutputChannels ∧ i < buffer.numSamples then 0
      else if i < buffer.numSamples then
        if ch = 0 then
          buffer.data 0 i * (blockGains math (decide (host.law > 0.5)) (blockPan host p i)).left
        else if ch = 1 then
          buffer.data 0 i * (blockGains math (decide (host.law > 0.5)) (blockPan host p i)).right
        else buffer.data ch i
      else buffer.data ch i := by
  have hc : 2 + (host.totalNumOutputChannels - 2) = host.totalNumOutputChannels := by omega
  unfold processBlock blockPan
  simp only []
  rw [if_neg (by omega)]
  by_cases hu : useBreakpoints p.state host = true
  · simp only [hu, Bool.not_true, Bool.false_eq_true, if_false, if_true, hin, true_and,
      ge_iff_le, hout]
    rw [(clearChannels_spec _ _ _ _).2, hc, (monoLoop_spec _ _ _ _ _ _).2.2]
    simp only [Nat.zero_le, true_and, Nat.zero_add, Nat.sub_zero]
  · simp only [hu, Bool.not_false, if_true, if_false, hin, true_and, ge_iff_le, hout,
      Bool.false_eq_true]
    rw [(clearChannels_spec _ _ _ _).2, hc, (monoLoop_spec _ _ _ _ _ _).2.2]
    simp only [Nat.zero_le, true_and, Nat.zero_add, Nat.sub_zero]

/-- Every sample of the buffer after a block with at least two input channels and at
least two output channels. -/
theorem processBlock_stereo_data (math : FloatMath) (host : Host) (p : Renderer)
    (buffer : AudioBuffer) (hout : 2 ≤ host.totalNumOutputChannels)
    (hin : 2 ≤ host.totalNumInputChannels) (ch i : Nat) :
    (processBlock math host p buffer).2.data ch i =
      if 2 ≤ ch ∧ ch < host.totalNumOutputChannels ∧ i < buffer.numSamples then 0
      else if i < buffer.numSamples then
        if ch = 0 then
          buffer.data 0 i * (blockGains math (decide (host.law > 0.5)) (blockPan host p i)).left
        else if ch = 1 then
          buffer.data 1 i * (blockGains math (decide (host.law > 0.5)) (blockPan host p i)).right
        else buffer.data ch i
      else buffer.data ch i := by
  have hc : 2 + (host.totalNumOutputChannels - 2) = host.totalNumOutputChannels := by omega
  have hne : ¬ host.totalNumInputChannels = 1 := by omega
  unfold processBlock blockPan
  simp only []
  rw [if_neg (by omega)]
  by_cases hu : useBreakpoints p.state host = true
  · simp only [hu, Bool.not_true, Bool.false_eq_true, if_false, if_true, hne, false_and,
      ge_iff_le, hout, hin, and_self]
    rw [(clearChannels_spec _ _ _ _).2, hc, (stereoLoop_spec _ _ _ _ _ _).2.2]
    simp only [Nat.zero_le, true_and, Nat.zero_add, Nat.sub_zero]
  · simp only [hu, Bool.not_false, if_true, if_false, hne, false_and, ge_iff_le, hout, hin,
      and_self, Bool.false_eq_true]
    rw [(clearChannels_spec _ _ _ _).2, hc, (stereoLoop_spec _ _ _ _ _ _).2.2]
    simp only [Nat.zero_le, true_and, Nat.zero_add, Nat.sub_zero]

/-- A block with no input channel, or with fewer than two output channels, leaves the
buffer as it was. -/
theorem processBlock_untouched (math : FloatMath) (host : Host) (p : Renderer)
    (buffer : AudioBuffer)
    (h : host.totalNumOutputChannels < 2 ∨ host.totalNumInputChannels = 0) :
    (processBlock math host p buffer).2 = buffer := by
  unfold processBlock
  simp only []
  by_cases hout : host.totalNumOutputChannels < 2
  · rw [if_pos hout]
  · rw [if_neg hout]
    have hin : host.totalNumInputChannels = 0 := by
      rcases h with h | h
      · exact absurd h hout
      · exact h
    have h1 : ¬ (host.totalNumInputChannels = 1 ∧ host.totalNumOutputChannels ≥ 2) := by omega
    have h2 : ¬ (host.totalNumInputChannels ≥ 2 ∧ host.totalNumOutputChannels ≥ 2) := by omega
    split_ifs <;> rfl

/-- A layout `isBusesLayoutSupported` accepts has a mono or stereo main input and a stereo
main output, so the block sees at least one input channel and at least two output
channels. -/
theorem supported_layout_channels (layouts : BusesLayout)
    (h : isBusesLayoutSupported layouts = true) :
    1 ≤ totalNumChannels layouts.inputBuses ∧ 2 ≤ totalNumChannels layouts.outputBuses := by
  simp only [isBusesLayoutSupported, getMainInputChannelSet, getMainOutputChannelSet,
    Bool.and_eq_true, Bool.or_eq_true, decide_eq_true_eq] at h
  obtain ⟨hout, hin⟩ := h
  constructor
  · cases hi : layouts.inputBuses with
    | nil => rw [hi] at hin; simp at hin
    | cons i rest =>
      rw [hi] at hin
      simp only [List.headD_cons] at hin
      rcases hin with h | h
      · simp [totalNumChannels, h, AudioChannelSet.size]
      · simp [totalNumChannels, h, AudioChannelSet.size]
        omega
  · cases ho : layouts.outputBuses with
    | nil => rw [ho] at hout; simp at hout
    | cons o rest =>
      rw [ho] at hout
      simp only [List.headD_cons] at hout
      simp [totalNumChannels, hout, AudioChannelSet.size]

/-- Outside the supported layouts: with 0 input channels and 3 outputs neither routing
branch runs, nothing is cleared, and channel 2 keeps its samples. -/
theorem extra_channel_not_silenced_without_input :
    (processBlock sampleMath (hostBlock 0 3 none 0) preparedRenderer (onesBuffer 1)).2.data 2 0
      = 1 ∧
    (processBlock sampleMath (hostBlock 0 3 none 0) preparedRenderer (onesBuffer 1)).2.data 2 0
      ≠ 0 := by
  have h : (processBlock sampleMath (hostBlock 0 3 none 0) preparedRenderer (onesBuffer 1)).2
      = onesBuffer 1 := processBlock_untouched _ _ _ _ (Or.inr rfl)
  rw [h]
  exact ⟨rfl, by norm_num [onesBuffer]⟩

/-- C12: channel routing of `processBlock`, for every block that has an input channel (a
layout `isBusesLayoutSupported` accepts always has one), with `gL_i`, `gR_i` the gains of
the pan position of sample `i`: with 1 input channel and at least 2 outputs,
`out0[i] = in0[i] * gL_i` and `out1[i] = in0[i] * gR_i`; with at least 2 input channels and
at least 2 outputs, `out0[i] = in0[i] * gL_i` and `out1[i] = in1[i] * gR_i`; every output
channel with index at least 2 is all zeros after the block; with fewer than 2 output
channels the buffer is left unchanged. -/
theorem processBlock_routing (math : FloatMath) (host : Host) (p : Renderer)
    (buffer : AudioBuffer) (hinput : 1 ≤ host.totalNumInputChannels) :
    (host.totalNumInputChannels = 1 → 2 ≤ host.totalNumOutputChannels →
      ∀ i, i < buffer.numSamples →
        (processBlock math host p buffer).2.data 0 i
          = buffer.data 0 i
            * (blockGains math (decide (host.law > 0.5)) (blockPan host p i)).left ∧
        (processBlock math host p buffer).2.data 1 i
          = buffer.data 0 i
            * (blockGains math (decide (host.law > 0.5)) (blockPan host p i)).right) ∧
    (2 ≤ host.totalNumInputChannels → 2 ≤ host.totalNumOutputChannels →
      ∀ i, i < buffer.numSamples →
        (processBlock math host p buffer).2.data 0 i
          = buffer.data 0 i
            * (blockGains math (decide (host.law > 0.5)) (blockPan host p i)).left ∧
        (processBlock math host p buffer).2.data 1 i
          = buffer.data 1 i
            * (blockGains math (decide (host.law > 0.5)) (blockPan host p i)).right) ∧
    (∀ ch i, 2 ≤ ch → ch < host.totalNumOutputChannels → i < buffer.numSamples →
      (processBlock math host p buffer).2.data ch i = 0) ∧
    (host.totalNumOutputChannels < 2 → (processBlock math host p buffer).2 = buffer) := by
  refine ⟨?_, ?_, ?_, fun h => processBlock_untouched math host p buffer (Or.inl h)⟩
  · intro hin hout i hi
    constructor
    · rw [processBlock_mono_data math host p buffer hout hin 0 i]
      simp [hi]
    · rw [processBlock_mono_data math host p buffer hout hin 1 i]
      simp [hi]
  · intro hin hout i hi
    constructor
    · rw [processBlock_stereo_data math host p buffer hout hin 0 i]
      simp [hi]
    · rw [processBlock_stereo_data math host p buffer hout hin 1 i]
      simp [hi]
  · intro ch i hch hlt hi
    have hout : 2 ≤ host.totalNumOutputChannels := by omega
    rcases Nat.eq_or_lt_of_le hinput with h1 | h2
    · rw [processBlock_mono_data math host p buffer hout h1.symm ch i, if_pos ⟨hch, hlt, hi⟩]
    · rw [processBlock_stereo_data math host p buffer hout h2 ch i, if_pos ⟨hch, hlt, hi⟩]

/-- C12, evaluated: a mono block of ones in live mode with `pan = 0` and the linear law
comes out as 1/2 on both channels, and a third output channel is zeroed. -/
theorem processBlock_routing_witness :
    (processBlock sampleMath (hostBlock 1 3 none 0) preparedRenderer (onesBuffer 2)).2.data 0 1
      = 1 / 2 ∧
    (processBlock sampleMath (hostBlock 1 3 none 0) preparedRenderer (onesBuffer 2)).2.data 1 1
      = 1 / 2 ∧
    (processBlock sampleMath (hostBlock 1 3 none 0) preparedRenderer (onesBuffer 2)).2.data 2 1
      = 0 := by
  have hpan : blockPan (hostBlock 1 3 none 0) preparedRenderer 1 = 0 := by
    norm_num [blockPan, useBreakpoints, hostBlock, preparedRenderer, panOfSample, sourceAfter,
      SmoothedValue.setTargetValue, SmoothedValue.getNextValue, restingSmoothedPan]
  have h := processBlock_routing sampleMath (hostBlock 1 3 none 0) preparedRenderer
    (onesBuffer 2) (by decide)
  have h1 := h.1 rfl (by decide) 1 (by decide)
  have h3 := h.2.2.1 2 1 (by decide) (by decide) (by decide)
  rw [hpan] at h1
  refine ⟨h1.1.trans ?_, h1.2.trans ?_, h3⟩
  · norm_num [blockGains, hostBlock, linearPan, onesBuffer]
  · norm_num [blockGains, hostBlock, linearPan, onesBuffer]

/-- The automation source after `i` samples: the curve members other than the cursor are
those of the start, and `sampleTime` has advanced by `i` time increments. -/
theorem sourceAfter_automation (s : State) (t : ℚ) (i : Nat) :
    (sourceAfter nextAutomationPan (s, t) i).1.breakpoints = s.breakpoints ∧
    (sourceAfter nextAutomationPan (s, t) i).1.breakpointsLoaded = s.breakpointsLoaded ∧
    (sourceAfter nextAutomationPan (s, t) i).1.currentTime = s.currentTime ∧
    (sourceAfter nextAutomationPan (s, t) i).1.timeIncrement = s.timeIncrement ∧
    (sourceAfter nextAutomationPan (s, t) i).2 = t + i * s.timeIncrement := by
  induction i with
  | zero => simp [sourceAfter]
  | succ i ih =>
    obtain ⟨h1, h2, h3, h4, h5⟩ := ih
    obtain ⟨k1, k2, k3, k4⟩ := getBreakpointValue_keeps
      (sourceAfter nextAutomationPan (s, t) i).1 (sourceAfter nextAutomationPan (s, t) i).2
    simp only [sourceAfter, nextAutomationPan]
    refine ⟨k1.trans h1, k2.trans h2, k3.trans h3, k4.trans h4, ?_⟩
    rw [h5, h4]
    push_cast
    ring

/-- On the automation path with at least two output channels the block publishes its
start time: `currentTime` after the block is the resolved block start time. -/
theorem processBlock_publishes (math : FloatMath) (host : Host) (p : Renderer)
    (buffer : AudioBuffer) (hout : 2 ≤ host.totalNumOutputChannels)
    (hu : useBreakpoints p.state host = true) :
    (processBlock math host p buffer).1.state.currentTime
      = resolveBlockStartTime p.state host.playHead := by
  unfold processBlock
  simp only []
  rw [if_neg (by omega)]
  simp only [hu, Bool.not_true, Bool.false_eq_true, if_false]
  split_ifs
  · rw [(monoLoop_spec _ _ _ _ _ _).1]
    exact (sourceAfter_automation _ _ _).2.2.1
  · rw [(stereoLoop_spec _ _ _ _ _ _).1]
    exact (sourceAfter_automation _ _ _).2.2.1
  · rfl

/-- C11 as stated fails: after a block that published the host time 3, a block with no
playhead, with a playhead but no position, or with a position but no time-in-seconds
starts at 0, not at the published 3. -/
theorem block_starts_at_zero_without_host_time :
    (processBlock sampleMath (hostBlock 2 2 (playHeadAt 3) 1) preparedRenderer
      (onesBuffer 1)).1.state.currentTime = 3 ∧
    resolveBlockStartTime
      (processBlock sampleMath (hostBlock 2 2 (playHeadAt 3) 1) preparedRenderer
        (onesBuffer 1)).1.state none = 0 ∧
    resolveBlockStartTime
      (processBlock sampleMath (hostBlock 2 2 (playHeadAt 3) 1) preparedRenderer
        (onesBuffer 1)).1.state (some { position := none }) = 0 ∧
    resolveBlockStartTime
      (processBlock sampleMath (hostBlock 2 2 (playHeadAt 3) 1) preparedRenderer
        (onesBuffer 1)).1.state (some { position := some { timeInSeconds := none } }) = 0 ∧
    (processBlock sampleMath (hostBlock 2 2 none 1)
      (processBlock sampleMath (hostBlock 2 2 (playHeadAt 3) 1) preparedRenderer
        (onesBuffer 1)).1 (onesBuffer 1)).1.state.currentTime = 0 := by
  have hu : useBreakpoints preparedRenderer.state (hostBlock 2 2 (playHeadAt 3) 1) = true := by
    norm_num [useBreakpoints, preparedRenderer, hostBlock]
  have h1 := processBlock_publishes sampleMath (hostBlock 2 2 (playHeadAt 3) 1)
    preparedRenderer (onesBuffer 1) (by decide) hu
  have h3 : resolveBlockStartTime preparedRenderer.state
      (hostBlock 2 2 (playHeadAt 3) 1).playHead = 3 := by
    norm_num [resolveBlockStartTime, hostBlock, playHeadAt]
  refine ⟨h1.trans h3, ?_, ?_, ?_, ?_⟩
  · simp [resolveBlockStartTime]
  · simp [resolveBlockStartTime]
  · simp [resolveBlockStartTime]
  · have hl : (processBlock sampleMath (hostBlock 2 2 (playHeadAt 3) 1) preparedRenderer
        (onesBuffer 1)).1.state.breakpointsLoaded = true := by
      unfold processBlock
      simp only []
      rw [if_neg (by decide)]
      simp only [hu, Bool.not_true, Bool.false_eq_true, if_false]
      rw [if_neg (by decide), if_pos (by decide)]
      simp only []
      rw [(stereoLoop_spec _ _ _ _ _ _).1]
      exact (sourceAfter_automation _ _ _).2.1
    have hu2 : useBreakpoints
        (processBlock sampleMath (hostBlock 2 2 (playHeadAt 3) 1) preparedRenderer
          (onesBuffer 1)).1.state (hostBlock 2 2 none 1) = true := by
      rw [useBreakpoints, hl]
      norm_num [hostBlock]
    rw [processBlock_publishes sampleMath (hostBlock 2 2 none 1) _ (onesBuffer 1) (by decide) hu2]
    simp [resolveBlockStartTime, hostBlock]

/-- C11, amended: on the automation path the block start time (the time the block
publishes) equals the host transport time when the host supplies a time that is finite and
non-negative; it equals the value last published when the host supplies a negative or a
non-finite time; and it is 0 when the host supplies no time (no playhead, no position, or
no time-in-seconds). -/
theorem blockStartTime_resolution (math : FloatMath) (host : Host) (p : Renderer)
    (buffer : AudioBuffer) :
    (2 ≤ host.totalNumOutputChannels → useBreakpoints p.state host = true →
      (processBlock math host p buffer).1.state.currentTime
        = resolveBlockStartTime p.state host.playHead) ∧
    (∀ q, hostTime host.playHead = some (HostDouble.finite q) → 0 ≤ q →
      resolveBlockStartTime p.state host.playHead = q) ∧
    (∀ q, hostTime host.playHead = some (HostDouble.finite q) → q < 0 →
      resolveBlockStartTime p.state host.playHead = p.state.currentTime) ∧
    (hostTime host.playHead = some HostDouble.nonFinite →
      resolveBlockStartTime p.state host.playHead = p.state.currentTime) ∧
    (hostTime host.playHead = none → resolveBlockStartTime p.state host.playHead = 0) := by
  refine ⟨processBlock_publishes math host p buffer, ?_, ?_, ?_, ?_⟩
  · intro q hq h0
    unfold hostTime at hq
    unfold resolveBlockStartTime
    split at hq
    · exact absurd hq (by simp)
    · split at hq
      · exact absurd hq (by simp)
      · rename_i ph pi hpi
        simp only [hpi, hq, Option.getD_some, if_neg (not_lt.mpr h0)]
  · intro q hq h0
    unfold hostTime at hq
    unfold resolveBlockStartTime
    split at hq
    · exact absurd hq (by simp)
    · split at hq
      · exact absurd hq (by simp)
      · rename_i ph pi hpi
        simp only [hpi, hq, Option.getD_some, if_pos h0]
  · intro hq
    unfold hostTime at hq
    unfold resolveBlockStartTime
    split at hq
    · exact absurd hq (by simp)
    · split at hq
      · exact absurd hq (by simp)
      · rename_i ph pi hpi
        simp only [hpi, hq, Option.getD_some]
  · intro hq
    unfold hostTime at hq
    unfold resolveBlockStartTime
    split at hq
    · rfl
    · split at hq
      · rename_i ph hpi
        simp only [hpi]
      · rename_i ph pi hpi
        simp only [hpi, hq, Option.getD_none]
        norm_num

/-- C11 amended, evaluated: a host time of 3 is taken as the block start time, and a host
time of -2 is replaced by the published time 0 of the prepared renderer. -/
theorem blockStartTime_resolution_witness :
    resolveBlockStartTime preparedRenderer.state (playHeadAt 3) = 3 ∧
    resolveBlockStartTime preparedRenderer.state (playHeadAt (-2)) = 0 :=
  ⟨(blockStartTime_resolution sampleMath (hostBlock 2 2 (playHeadAt 3) 1) preparedRenderer
      (onesBuffer 1)).2.1 3 rfl (by norm_num),
   (blockStartTime_resolution sampleMath (hostBlock 2 2 (playHeadAt (-2)) 1) preparedRenderer
      (onesBuffer 1)).2.2.1 (-2) rfl (by norm_num)⟩

/-- The object after an automation block with at least two input and output channels. -/
theorem processBlock_stereo_state (math : FloatMath) (host : Host) (p : Renderer)
    (buffer : AudioBuffer) (hout : 2 ≤ host.totalNumOutputChannels)
    (hin : 2 ≤ host.totalNumInputChannels) (hu : useBreakpoints p.state host = true) :
    (processBlock math host p buffer).1 =
      { p with state := (sourceAfter nextAutomationPan
          ({ p.state with currentTime := resolveBlockStartTime p.state host.playHead },
            resolveBlockStartTime p.state host.playHead) buffer.numSamples).1 } := by
  have hne : ¬ host.totalNumInputChannels = 1 := by omega
  unfold processBlock
  simp only []
  rw [if_neg (by omega)]
  simp only [hu, Bool.not_true, Bool.false_eq_true, if_false, hne, false_and, ge_iff_le, hout,
    hin, and_self, if_true]
  rw [(stereoLoop_spec _ _ _ _ _ _).1]

/-- The renderer after the block at host time 6: the cursor has moved to 1. -/
theorem afterBlockAtSix_eq :
    afterBlockAtSix =
      { state :=
          { breakpoints := [{ time := 0, value := -1 }, { time := 5, value := 1 }],
            breakpointsLoaded := true, currentTime := 6, timeIncrement := 1 / 4,
            currentBreakpointIndex := 1 },
        smoothedPan := restingSmoothedPan } := by
  have hu : useBreakpoints preparedRenderer.state (hostBlock 2 2 (playHeadAt 6) 1) = true := by
    norm_num [useBreakpoints, preparedRenderer, hostBlock]
  have hr : resolveBlockStartTime preparedRenderer.state
      (hostBlock 2 2 (playHeadAt 6) 1).playHead = 6 := by
    norm_num [resolveBlockStartTime, hostBlock, playHeadAt]
  have ha : advanceCursor
      [({ time := 0, value := -1 } : Breakpoint), { time := 5, value := 1 }] 6 0 = 1 := by
    rw [advanceCursor]; norm_num
    rw [advanceCursor]; norm_num
  unfold afterBlockAtSix
  rw [processBlock_stereo_state _ _ _ _ (by decide) (by decide) hu, hr]
  simp only [onesBuffer, sourceAfter, nextAutomationPan, preparedRenderer]
  rw [getBreakpointValue_snd _ _ (by decide)]
  simp only [ha]

/-- C16 fails on the code: after a block at host time 6 the cursor stands at 1, and
`processBlock` never resets it. A following block that starts at host time 0 (transport
restart) uses the pan position 1 for its first sample and writes 0 to the left channel,
whereas the curve's value at time 0 from a reset cursor is -1. -/
theorem stale_cursor_after_transport_restart :
    afterBlockAtSix.state.currentBreakpointIndex = 1 ∧
    resolveBlockStartTime afterBlockAtSix.state (playHeadAt 0) = 0 ∧
    blockPan (hostBlock 2 2 (playHeadAt 0) 1) afterBlockAtSix 0 = 1 ∧
    (getBreakpointValue { afterBlockAtSix.state with currentBreakpointIndex := 0 } 0).1 = -1 ∧
    (processBlock sampleMath (hostBlock 2 2 (playHeadAt 0) 1) afterBlockAtSix
      (onesBuffer 1)).2.data 0 0 = 0 := by
  have hr : resolveBlockStartTime afterBlockAtSix.state (playHeadAt 0) = 0 := by
    norm_num [resolveBlockStartTime, playHeadAt]
  have hpan : blockPan (hostBlock 2 2 (playHeadAt 0) 1) afterBlockAtSix 0 = 1 := by
    rw [afterBlockAtSix_eq]
    have ha : advanceCursor
        [({ time := 0, value := -1 } : Breakpoint), { time := 5, value := 1 }] 0 1 = 1 := by
      rw [advanceCursor]; norm_num
    norm_num [blockPan, useBreakpoints, hostBlock, panOfSample, sourceAfter, nextAutomationPan,
      resolveBlockStartTime, playHeadAt, getBreakpointValue, ha]
  refine ⟨by rw [afterBlockAtSix_eq], hr, hpan, ?_, ?_⟩
  · rw [afterBlockAtSix_eq]
    have ha : advanceCursor
        [({ time := 0, value := -1 } : Breakpoint), { time := 5, value := 1 }] 0 0 = 0 := by
      rw [advanceCursor]; norm_num
    norm_num [getBreakpointValue, ha]
  · rw [processBlock_stereo_data _ _ _ _ (by decide) (by decide), hpan]
    norm_num [onesBuffer, blockGains, hostBlock, linearPan]

/-- The renderer built for the curve `[(2,-1),(5,1)]`. -/
theorem lateStartRenderer_eq (std : StdSort) :
    lateStartRenderer std =
      { state :=
          { breakpoints := [{ time := 2, value := -1 }, { time := 5, value := 1 }],
            breakpointsLoaded := true, currentTime := 0, timeIncrement := 1 / 4,
            currentBreakpointIndex := 0 },
        smoothedPan := restingSmoothedPan } := by
  have h1 : addBreakpoint std initialState 2 (-1)
      = { breakpoints := [{ time := 2, value := -1 }],
          breakpointsLoaded := true, currentTime := 0, timeIncrement := 0,
          currentBreakpointIndex := 0 } := by
    simp only [addBreakpoint, sortBreakpoints, initialState]
    rw [sortVector_eq_insertionSort std _
      (by norm_num [jmax, jlimit, timeOrdered, timeLess])]
    norm_num [jmax, jlimit, timeOrdered, timeLess]
  have h2 : addBreakpoint std
      { breakpoints := [{ time := 2, value := -1 }],
        breakpointsLoaded := true, currentTime := 0, timeIncrement := 0,
        currentBreakpointIndex := 0 } 5 1
      = { breakpoints := [{ time := 2, value := -1 }, { time := 5, value := 1 }],
          breakpointsLoaded := true, currentTime := 0, timeIncrement := 0,
          currentBreakpointIndex := 0 } := by
    simp only [addBreakpoint, sortBreakpoints]
    rw [sortVector_eq_insertionSort std _
      (by norm_num [jmax, jlimit, timeOrdered, timeLess])]
    norm_num [jmax, jlimit, timeOrdered, timeLess]
  unfold lateStartRenderer
  rw [h1, h2]
  norm_num [prepareToPlay]

/-- C17 fails on the code: the curve `[(2,-1),(5,1)]` is sorted with times `≥ 0` and values
in `[-1,1]`, the cursor is 0 and the block starts at time 0, yet the first sample's pan
position is `-7/3` (the first segment is extended backwards before the first breakpoint),
the right gain of the linear law is `-2/3`, and the right output sample is negative. -/
theorem pan_out_of_range_before_first_breakpoint (std : StdSort) :
    SortedByTime (lateStartRenderer std).state.breakpoints ∧
    (∀ b ∈ (lateStartRenderer std).state.breakpoints, b.InRange) ∧
    (lateStartRenderer std).state.currentBreakpointIndex = 0 ∧
    resolveBlockStartTime (lateStartRenderer std).state (playHeadAt 0) = 0 ∧
    blockPan (hostBlock 1 2 (playHeadAt 0) 1) (lateStartRenderer std) 0 = -7 / 3 ∧
    (linearPan (-7 / 3 : ℚ)).right = -2 / 3 ∧
    (processBlock sampleMath (hostBlock 1 2 (playHeadAt 0) 1) (lateStartRenderer std)
      (onesBuffer 1)).2.data 1 0 = -2 / 3 := by
  have hpan : blockPan (hostBlock 1 2 (playHeadAt 0) 1) (lateStartRenderer std) 0 = -7 / 3 := by
    rw [lateStartRenderer_eq]
    have ha : advanceCursor
        [({ time := 2, value := -1 } : Breakpoint), { time := 5, value := 1 }] 0 0 = 0 := by
      rw [advanceCursor]; norm_num
    norm_num [blockPan, useBreakpoints, hostBlock, panOfSample, sourceAfter, nextAutomationPan,
      resolveBlockStartTime, playHeadAt, getBreakpointValue, ha]
  refine ⟨?_, ?_, ?_, ?_, hpan, ?_, ?_⟩
  · rw [lateStartRenderer_eq]
    norm_num [SortedByTime, timeOrdered, timeLess]
  · rw [lateStartRenderer_eq]
    norm_num [Breakpoint.InRange]
  · rw [lateStartRenderer_eq]
  · norm_num [resolveBlockStartTime, playHeadAt]
  · norm_num [linearPan]
  · rw [processBlock_mono_data _ _ _ _ (by decide) rfl, hpan]
    norm_num [onesBuffer, blockGains, hostBlock, linearPan]

/-- Where the range does hold: on a curve sorted by time with all values in `[-1,1]`,
from a reset cursor, a lookup at a time not before the first breakpoint returns a value in
`[-1,1]`, and the linear law then gives gains `≥ 0`. -/
theorem getBreakpointValue_in_range (s : State) (t : ℚ)
    (hsorted : SortedByTime s.breakpoints)
    (hrange : ∀ b ∈ s.breakpoints, -1 ≤ b.value ∧ b.value ≤ 1)
    (hcur : s.currentBreakpointIndex = 0)
    (hfirst : ∀ b ∈ s.breakpoints.head?, b.time ≤ t) :
    (-1 ≤ (getBreakpointValue s t).1 ∧ (getBreakpointValue s t).1 ≤ 1) ∧
    0 ≤ (linearPan (getBreakpointValue s t).1).left ∧
    0 ≤ (linearPan (getBreakpointValue s t).1).right := by
  suffices h : -1 ≤ (getBreakpointValue s t).1 ∧ (getBreakpointValue s t).1 ≤ 1 by
    refine ⟨h, ?_, ?_⟩
    · norm_num [linearPan]; linarith [h.2]
    · norm_num [linearPan]; linarith [h.1]
  by_cases hsz : s.breakpoints.length < 2
  · rw [getBreakpointValue_of_short s t hsz]
    norm_num
  · have hlen : 2 ≤ s.breakpoints.length := by omega
    obtain ⟨-, -, hpast, hstop⟩ := advanceCursor_spec s.breakpoints t s.currentBreakpointIndex
    rw [hcur] at hpast hstop
    by_cases hj : advanceCursor s.breakpoints t 0 + 1 < s.breakpoints.length
    · have hval := getBreakpointValue_inside s t (by rw [hcur]; exact hj)
      simp only [hcur] at hval
      rw [hval]
      have hl := hrange _ (List.getElem_mem (l := s.breakpoints)
        (show advanceCursor s.breakpoints t 0 < s.breakpoints.length by omega))
      have hr := hrange _ (List.getElem_mem (l := s.breakpoints) hj)
      split_ifs with heq
      · exact hr
      · have hle : s.breakpoints[advanceCursor s.breakpoints t 0].time
            ≤ s.breakpoints[advanceCursor s.breakpoints t 0 + 1].time :=
          (timeOrdered_iff _ _).mp
            (List.pairwise_iff_getElem.mp hsorted _ _ (by omega) hj (by omega))
        have hlt : 0 < s.breakpoints[advanceCursor s.breakpoints t 0 + 1].time
            - s.breakpoints[advanceCursor s.breakpoints t 0].time :=
          lt_of_le_of_ne (by linarith) (Ne.symm heq)
        have hlo : s.breakpoints[advanceCursor s.breakpoints t 0].time ≤ t := by
          rcases Nat.eq_zero_or_pos (advanceCursor s.breakpoints t 0) with h0 | hpos
          · have hhead : s.breakpoints.head? = some s.breakpoints[0] := by
              rw [List.head?_eq_getElem?, List.getElem?_eq_getElem]
            have := hfirst _ (by rw [hhead]; exact rfl)
            simpa only [h0] using this
          · exact le_of_lt (hpast _ (by omega) hpos (le_refl _))
        have hhi : t ≤ s.breakpoints[advanceCursor s.breakpoints t 0 + 1].time :=
          le_of_not_lt (hstop hj)
        have hf0 : 0 ≤ (t - s.breakpoints[advanceCursor s.breakpoints t 0].time)
            / (s.breakpoints[advanceCursor s.breakpoints t 0 + 1].time
              - s.breakpoints[advanceCursor s.breakpoints t 0].time) :=
          div_nonneg (by linarith) (le_of_lt hlt)
        have hf1 : (t - s.breakpoints[advanceCursor s.breakpoints t 0].time)
            / (s.breakpoints[advanceCursor s.breakpoints t 0 + 1].time
              - s.breakpoints[advanceCursor s.breakpoints t 0].time) ≤ 1 := by
          rw [div_le_one hlt]; linarith
        constructor
        · nlinarith [hl.1, hl.2, hr.1, hr.2, hf0, hf1]
        · nlinarith [hl.1, hl.2, hr.1, hr.2, hf0, hf1]
    · have hne : s.breakpoints ≠ [] := List.ne_nil_of_length_pos (by omega)
      rw [getBreakpointValue_at_end s t hne hlen (by rw [hcur]; omega)]
      exact hrange _ (List.getLast_mem hne)

/-! ### The loaded flag -/

theorem sortVector_isEmpty (std : StdSort) (bps : List Breakpoint) :
    (sortVector std bps).isEmpty = bps.isEmpty := by
  have h := (sortVector_perm std bps).length_eq
  cases hb : bps with
  | nil => rw [hb] at h; simp [List.length_eq_zero.mp h]
  | cons a l =>
    rw [hb] at h
    cases hs : sortVector std (a :: l) with
    | nil => rw [hs] at h; simp at h
    | cons b m => rfl

/-- In every reachable object the loaded flag says whether the curve is non-empty. -/
theorem reachable_loaded (std : StdSort) (s : State) (hs : Reachable std s) :
    s.breakpointsLoaded = !s.breakpoints.isEmpty := by
  induction hs with
  | construct s h =>
    obtain ⟨loop, _, hp⟩ := parseBreakpointText_some std _ _ s h
    rw [hp]
  | text s t parsed _ h _ =>
    obtain ⟨loop, _, hp⟩ := parseBreakpointText_some std _ _ parsed h
    rw [hp]
  | sine s twoPi sin duration amplitude frequency _ _ =>
    simp only [generateSineCurve, sortBreakpoints, sortVector_isEmpty]
    rfl
  | ramp s duration start endValue _ _ => rfl
  | random s nextFloat duration density _ _ =>
    simp only [generateRandomCurve, sortBreakpoints, sortVector_isEmpty]
    rfl
  | add s time value _ _ =>
    simp only [addBreakpoint, sortBreakpoints, sortVector_isEmpty]
    cases s.breakpoints <;> rfl
  | update s index time value _ ih =>
    unfold updateBreakpoint
    split_ifs with h
    · simp only [sortBreakpoints, sortVector_isEmpty]
      rw [ih]
      cases hb : s.breakpoints with
      | nil => rw [hb] at h; simp at h
      | cons a l => cases index <;> rfl
    · exact ih
  | remove s index _ ih =>
    unfold removeBreakpoint
    split_ifs with h
    · rfl
    · exact ih
  | prepare s sampleRate _ ih => exact ih
  | lookup s time _ ih =>
    rw [(getBreakpointValue_keeps s time).1, (getBreakpointValue_keeps s time).2.1]
    exact ih
  | publish s time _ ih => exact ih

/-- The object after a block on the live path: the curve members are untouched. -/
theorem processBlock_live_state (math : FloatMath) (host : Host) (p : Renderer)
    (buffer : AudioBuffer) (hu : useBreakpoints p.state host = false) :
    (processBlock math host p buffer).1.state = p.state := by
  unfold processBlock
  simp only [hu, Bool.not_false, if_true]
  split_ifs <;> rfl

/-- The object after a block on the automation path: the smoothed value is untouched. -/
theorem processBlock_automation_smoothed (math : FloatMath) (host : Host) (p : Renderer)
    (buffer : AudioBuffer) (hu : useBreakpoints p.state host = true) :
    (processBlock math host p buffer).1.smoothedPan = p.smoothedPan := by
  unfold processBlock
  simp only [hu, Bool.not_true, Bool.false_eq_true, if_false]
  split_ifs <;> rfl

/-- A block on the automation path with an input channel and at least two outputs: the
object after the block is the one the per-sample curve lookups leave, and the first two
output channels are the input scaled by the gains of those lookups. -/
theorem processBlock_automation (math : FloatMath) (host : Host) (p : Renderer)
    (buffer : AudioBuffer) (hin : 1 ≤ host.totalNumInputChannels)
    (hout : 2 ≤ host.totalNumOutputChannels) (hu : useBreakpoints p.state host = true) :
    (processBlock math host p buffer).1
      = { p with state := (sourceAfter nextAutomationPan
          ({ p.state with currentTime := resolveBlockStartTime p.state host.playHead },
            resolveBlockStartTime p.state host.playHead) buffer.numSamples).1 } ∧
    ∀ i, i < buffer.numSamples →
      (processBlock math host p buffer).2.data 0 i
        = buffer.data 0 i * (blockGains math (decide (host.law > 0.5))
            (panOfSample nextAutomationPan
              ({ p.state with currentTime := resolveBlockStartTime p.state host.playHead },
                resolveBlockStartTime p.state host.playHead) i)).left ∧
      (processBlock math host p buffer).2.data 1 i
        = buffer.data (if host.totalNumInputChannels = 1 then 0 else 1) i
          * (blockGains math (decide (host.law > 0.5))
            (panOfSample nextAutomationPan
              ({ p.state with currentTime := resolveBlockStartTime p.state host.playHead },
                resolveBlockStartTime p.state host.playHead) i)).right := by
  have hpan : ∀ i, blockPan host p i = panOfSample nextAutomationPan
      ({ p.state with currentTime := resolveBlockStartTime p.state host.playHead },
        resolveBlockStartTime p.state host.playHead) i := by
    intro i
    unfold blockPan
    rw [if_pos hu]
  rcases Nat.eq_or_lt_of_le hin with h1 | h2
  · have hone : host.totalNumInputChannels = 1 := h1.symm
    constructor
    · unfold processBlock
      simp only []
      rw [if_neg (by omega)]
      simp only [hu, Bool.not_true, Bool.false_eq_true, if_false, hone, true_and, ge_iff_le,
        hout, if_true]
      rw [(monoLoop_spec _ _ _ _ _ _).1]
    · intro i hi
      rw [processBlock_mono_data math host p buffer hout hone 0 i,
        processBlock_mono_data math host p buffer hout hone 1 i, hpan i]
      simp [hi, hone]
  · have htwo : 2 ≤ host.totalNumInputChannels := h2
    have hne : ¬ host.totalNumInputChannels = 1 := by omega
    constructor
    · unfold processBlock
      simp only []
      rw [if_neg (by omega)]
      simp only [hu, Bool.not_true, Bool.false_eq_true, if_false, hne, false_and, ge_iff_le,
        hout, htwo, and_self, if_true]
      rw [(stereoLoop_spec _ _ _ _ _ _).1]
    · intro i hi
      rw [processBlock_stereo_data math host p buffer hout htwo 0 i,
        processBlock_stereo_data math host p buffer hout htwo 1 i, hpan i]
      simp [hi, hne]

/-- A block on the live path with an input channel and at least two outputs: the smoothed
value gets the `pan` parameter as its target once and is then drawn once per sample, and
the first two output channels are the input scaled by the gains of the drawn values. -/
theorem processBlock_live (math : FloatMath) (host : Host) (p : Renderer)
    (buffer : AudioBuffer) (hin : 1 ≤ host.totalNumInputChannels)
    (hout : 2 ≤ host.totalNumOutputChannels) (hu : useBreakpoints p.state host = false) :
    (processBlock math host p buffer).1
      = { p with smoothedPan := (sourceAfter SmoothedValue.getNextValue
          (p.smoothedPan.setTargetValue host.pan) buffer.numSamples) } ∧
    ∀ i, i < buffer.numSamples →
      (processBlock math host p buffer).2.data 0 i
        = buffer.data 0 i * (blockGains math (decide (host.law > 0.5))
            (panOfSample SmoothedValue.getNextValue
              (p.smoothedPan.setTargetValue host.pan) i)).left ∧
      (processBlock math host p buffer).2.data 1 i
        = buffer.data (if host.totalNumInputChannels = 1 then 0 else 1) i
          * (blockGains math (decide (host.law > 0.5))
            (panOfSample SmoothedValue.getNextValue
              (p.smoothedPan.setTargetValue host.pan) i)).right := by
  have hpan : ∀ i, blockPan host p i = panOfSample SmoothedValue.getNextValue
      (p.smoothedPan.setTargetValue host.pan) i := by
    intro i
    unfold blockPan
    simp only [hu, Bool.false_eq_true, if_false]
  rcases Nat.eq_or_lt_of_le hin with h1 | h2
  · have hone : host.totalNumInputChannels = 1 := h1.symm
    constructor
    · unfold processBlock
      simp only []
      rw [if_neg (by omega)]
      simp only [hu, Bool.not_false, if_true, hone, true_and, ge_iff_le, hout]
      rw [(monoLoop_spec _ _ _ _ _ _).1]
    · intro i hi
      rw [processBlock_mono_data math host p buffer hout hone 0 i,
        processBlock_mono_data math host p buffer hout hone 1 i, hpan i]
      simp [hi, hone]
  · have htwo : 2 ≤ host.totalNumInputChannels := h2
    have hne : ¬ host.totalNumInputChannels = 1 := by omega
    constructor
    · unfold processBlock
      simp only []
      rw [if_neg (by omega)]
      simp only [hu, Bool.not_false, if_true, if_false, hne, false_and, ge_iff_le, hout, htwo,
        and_self]
      rw [(stereoLoop_spec _ _ _ _ _ _).1]
    · intro i hi
      rw [processBlock_stereo_data math host p buffer hout htwo 0 i,
        processBlock_stereo_data math host p buffer hout htwo 1 i, hpan i]
      simp [hi, hne]

/-- C20: in every reachable object the loaded flag is true iff the breakpoint sequence is
non-empty, so the flag `useBreakpoints` of `processBlock` is true exactly when the curve is
non-empty and sync is on. `processBlock` then takes the automation path: the smoothed
value is untouched, and in a block with an input channel and at least two outputs the
outputs are the inputs scaled by the gains of the curve lookups at the block's sample
times, the object being left as those lookups leave it. Otherwise it takes the live path:
the curve object is untouched, and in such a block the outputs are the inputs scaled by
the gains of the successive values of the smoothed `pan` parameter, the smoothed value
being left as those draws leave it. -/
theorem automation_path_iff_curve_nonempty (std : StdSort) (s : State)
    (hs : Reachable std s) (host : Host) :
    (s.breakpointsLoaded = true ↔ s.breakpoints ≠ []) ∧
    (useBreakpoints s host = true ↔ (s.breakpoints ≠ [] ∧ host.sync > 0.5)) ∧
    ∀ (math : FloatMath) (smoothed : SmoothedValue) (buffer : AudioBuffer),
      ((s.breakpoints ≠ [] ∧ host.sync > 0.5) →
        (processBlock math host { state := s, smoothedPan := smoothed } buffer).1.smoothedPan
          = smoothed ∧
        (1 ≤ host.totalNumInputChannels → 2 ≤ host.totalNumOutputChannels →
          (processBlock math host { state := s, smoothedPan := smoothed } buffer).1.state
            = (sourceAfter nextAutomationPan
                ({ s with currentTime := resolveBlockStartTime s host.playHead },
                  resolveBlockStartTime s host.playHead) buffer.numSamples).1 ∧
          ∀ i, i < buffer.numSamples →
            (processBlock math host { state := s, smoothedPan := smoothed } buffer).2.data 0 i
              = buffer.data 0 i * (blockGains math (decide (host.law > 0.5))
                  (panOfSample nextAutomationPan
                    ({ s with currentTime := resolveBlockStartTime s host.playHead },
                      resolveBlockStartTime s host.playHead) i)).left ∧
            (processBlock math host { state := s, smoothedPan := smoothed } buffer).2.data 1 i
              = buffer.data (if host.totalNumInputChannels = 1 then 0 else 1) i
                * (blockGains math (decide (host.law > 0.5))
                  (panOfSample nextAutomationPan
                    ({ s with currentTime := resolveBlockStartTime s host.playHead },
                      resolveBlockStartTime s host.playHead) i)).right)) ∧
      (¬ (s.breakpoints ≠ [] ∧ host.sync > 0.5) →
        (processBlock math host { state := s, smoothedPan := smoothed } buffer).1.state = s ∧
        (1 ≤ host.totalNumInputChannels → 2 ≤ host.totalNumOutputChannels →
          (processBlock math host { state := s, smoothedPan := smoothed } buffer).1.smoothedPan
            = sourceAfter SmoothedValue.getNextValue (smoothed.setTargetValue host.pan)
                buffer.numSamples ∧
          ∀ i, i < buffer.numSamples →
            (processBlock math host { state := s, smoothedPan := smoothed } buffer).2.data 0 i
              = buffer.data 0 i * (blockGains math (decide (host.law > 0.5))
                  (panOfSample SmoothedValue.getNextValue
                    (smoothed.setTargetValue host.pan) i)).left ∧
            (processBlock math host { state := s, smoothedPan := smoothed } buffer).2.data 1 i
              = buffer.data (if host.totalNumInputChannels = 1 then 0 else 1) i
                * (blockGains math (decide (host.law > 0.5))
                  (panOfSample SmoothedValue.getNextValue
                    (smoothed.setTargetValue host.pan) i)).right)) := by
  have hl := reachable_loaded std s hs
  have h1 : s.breakpointsLoaded = true ↔ s.breakpoints ≠ [] := by
    rw [hl]
    cases s.breakpoints <;> simp
  have h2 : useBreakpoints s host = true ↔ (s.breakpoints ≠ [] ∧ host.sync > 0.5) := by
    unfold useBreakpoints
    rw [Bool.and_eq_true, h1, decide_eq_true_iff]
  refine ⟨h1, h2, ?_⟩
  intro math smoothed buffer
  constructor
  · intro h
    have hu := h2.mpr h
    refine ⟨processBlock_automation_smoothed math host _ buffer hu, fun hin hout => ?_⟩
    obtain ⟨k1, k2⟩ := processBlock_automation math host
      { state := s, smoothedPan := smoothed } buffer hin hout hu
    exact ⟨by rw [k1], k2⟩
  · intro h
    have hu : useBreakpoints s host = false := by
      rw [← Bool.not_eq_true]
      exact fun hc => h (h2.mp hc)
    refine ⟨processBlock_live_state math host _ buffer hu, fun hin hout => ?_⟩
    obtain ⟨k1, k2⟩ := processBlock_live math host
      { state := s, smoothedPan := smoothed } buffer hin hout hu
    exact ⟨by rw [k1], k2⟩

/-- C20, evaluated on the constructed object `[(0,-1),(5,1)]` with a stereo block of ones
and the linear law: it is loaded and non-empty; with sync on the block takes the automation
path, the lookup at time 0 gives the pan position -1 and the right output sample is 0; with
sync off the block takes the live path, the smoothed `pan = 0` gives the gains 1/2 and the
right output sample is 1/2. -/
theorem automation_path_iff_curve_nonempty_witness :
    Reachable sampleStdSort leftToRightCurve ∧
    (leftToRightCurve.breakpointsLoaded = true ↔ leftToRightCurve.breakpoints ≠ []) ∧
    useBreakpoints leftToRightCurve (hostBlock 2 2 none 1) = true ∧
    (processBlock sampleMath (hostBlock 2 2 none 1)
      { state := leftToRightCurve, smoothedPan := restingSmoothedPan }
      (onesBuffer 1)).2.data 1 0 = 0 ∧
    useBreakpoints leftToRightCurve (hostBlock 2 2 none 0) = false ∧
    (processBlock sampleMath (hostBlock 2 2 none 0)
      { state := leftToRightCurve, smoothedPan := restingSmoothedPan }
      (onesBuffer 1)).2.data 1 0 = 1 / 2 := by
  have hr : Reachable sampleStdSort leftToRightCurve :=
    Reachable.construct _ (constructed_eq sampleStdSort)
  have hne : leftToRightCurve.breakpoints ≠ [] := List.cons_ne_nil _ _
  have hon := automation_path_iff_curve_nonempty sampleStdSort leftToRightCurve hr
    (hostBlock 2 2 none 1)
  have hoff := automation_path_iff_curve_nonempty sampleStdSort leftToRightCurve hr
    (hostBlock 2 2 none 0)
  have hsync : (hostBlock 2 2 none 1).sync > 0.5 := by norm_num [hostBlock]
  have hnosync : ¬ (leftToRightCurve.breakpoints ≠ [] ∧ (hostBlock 2 2 none 0).sync > 0.5) := by
    norm_num [hostBlock]
  have ha : advanceCursor
      [({ time := 0, value := -1 } : Breakpoint), { time := 5, value := 1 }] 0 0 = 0 := by
    rw [advanceCursor]; norm_num
  refine ⟨hr, hon.1, hon.2.1.mpr ⟨hne, hsync⟩, ?_, ?_, ?_⟩
  · have h := ((hon.2.2 sampleMath restingSmoothedPan (onesBuffer 1)).1 ⟨hne, hsync⟩).2
      (by decide) (by decide)
    rw [(h.2 0 (by decide)).2]
    norm_num [hostBlock, onesBuffer, blockGains, linearPan, panOfSample, sourceAfter,
      nextAutomationPan, resolveBlockStartTime, leftToRightCurve, getBreakpointValue, ha]
  · rw [← Bool.not_eq_true]
    exact fun hc => hnosync (hoff.2.1.mp hc)
  · have h := ((hoff.2.2 sampleMath restingSmoothedPan (onesBuffer 1)).2 hnosync).2
      (by decide) (by decide)
    rw [(h.2 0 (by decide)).2]
    norm_num [hostBlock, onesBuffer, blockGains, linearPan, panOfSample, sourceAfter,
      SmoothedValue.setTargetValue, SmoothedValue.getNextValue, restingSmoothedPan]

/-! ### Index safety of the cursor -/

/-- The loop with explicit reads never fails: it stops where `advanceCursor` stops. -/
theorem advanceCursorChecked_eq (bps : List Breakpoint) (time : ℚ) (idx : Nat) :
    advanceCursorChecked bps time idx = some (advanceCursor bps time idx) := by
  induction idx using advanceCursor.induct bps time with
  | case1 idx h hgt ih =>
    rw [advanceCursorChecked, if_pos h, List.getElem?_eq_getElem h]
    simp only [if_pos hgt, ih]
    rw [advanceCursor.eq_1 bps time idx, dif_pos h, if_pos hgt]
  | case2 idx h hgt =>
    rw [advanceCursorChecked, if_pos h, List.getElem?_eq_getElem h]
    simp only [if_neg hgt]
    rw [advanceCursor.eq_1 bps time idx, dif_pos h, if_neg hgt]
  | case3 idx h =>
    rw [advanceCursorChecked, if_neg h, advanceCursor.eq_1 bps time idx, dif_neg h]

/-- With explicit reads `getBreakpointValue` never reads out of range: for every object
and query time the checked version returns the result of `getBreakpointValue`. -/
theorem getBreakpointValueChecked_eq (s : State) (time : ℚ) :
    getBreakpointValueChecked s time = some (getBreakpointValue s time) := by
  unfold getBreakpointValueChecked getBreakpointValue
  by_cases hsz : s.breakpoints.length < 2
  · rw [if_pos hsz, dif_pos hsz]
  · rw [if_neg hsz, dif_neg hsz, advanceCursorChecked_eq]
    simp only []
    by_cases hj : advanceCursor s.breakpoints time s.currentBreakpointIndex
        ≥ s.breakpoints.length - 1
    · rw [if_pos hj, dif_pos hj,
        List.getLast?_eq_getLast _ (List.ne_nil_of_length_pos (by omega))]
    · rw [if_neg hj, dif_neg hj,
        List.getElem?_eq_getElem (show advanceCursor s.breakpoints time
          s.currentBreakpointIndex < s.breakpoints.length by omega),
        List.getElem?_eq_getElem (show advanceCursor s.breakpoints time
          s.currentBreakpointIndex + 1 < s.breakpoints.length by omega)]
      simp only []
      split_ifs <;> rfl

/-- The sort keeps the number of breakpoints. -/
theorem sortVector_length (std : StdSort) (bps : List Breakpoint) :
    (sortVector std bps).length = bps.length :=
  (sortVector_perm std bps).length_eq

/-- In every object reachable from the initial one the cursor is 0 or below the number of
breakpoints. -/
theorem reachable_cursor_in_range (std : StdSort) (s : State)
    (hs : ReachableFromInitial std s) :
    s.currentBreakpointIndex = 0 ∨ s.currentBreakpointIndex < s.breakpoints.length := by
  induction hs with
  | initial => exact Or.inl rfl
  | text s t parsed _ h _ =>
    obtain ⟨loop, _, hp⟩ := parseBreakpointText_some std _ _ parsed h
    rw [hp]
    exact Or.inl rfl
  | sine s twoPi sin duration amplitude frequency _ _ =>
    left; simp only [generateSineCurve]
  | ramp s duration start endValue _ _ => exact Or.inl rfl
  | random s nextFloat duration density _ _ =>
    left; simp only [generateRandomCurve]
  | add s time value _ ih =>
    simp only [addBreakpoint, sortBreakpoints, sortVector_length, List.length_append,
      List.length_singleton]
    rcases ih with h | h
    · exact Or.inl h
    · exact Or.inr (by omega)
  | update s index time value _ ih =>
    unfold updateBreakpoint
    split_ifs with h
    · simp only [sortBreakpoints, sortVector_length, List.length_set]
      exact ih
    · exact ih
  | remove s index _ ih =>
    unfold removeBreakpoint
    split_ifs with h
    · exact Or.inl rfl
    · exact ih
  | prepare s sampleRate _ _ => exact Or.inl rfl
  | lookup s time _ ih =>
    by_cases hsz : s.breakpoints.length < 2
    · rw [getBreakpointValue_of_short s time hsz]
      exact ih
    · right
      rw [(getBreakpointValue_keeps s time).1, getBreakpointValue_snd s time (by omega)]
      have h2 := (advanceCursor_spec s.breakpoints time s.currentBreakpointIndex).2.1
      apply h2
      rcases ih with h | h
      · rw [h]; omega
      · exact h
  | publish s time _ ih => exact ih

/-- C21: in every object reachable from the initial object (empty curve, cursor 0) through
any interleaving of `setBreakpointText`, the generators, `addBreakpoint`,
`updateBreakpoint`, `removeBreakpoint`, `prepareToPlay` and `getBreakpointValue` calls, the
cursor is 0 or strictly below the number of breakpoints, and for every query time
`getBreakpointValue` makes no out-of-range read: with every vector read made explicit it
still returns its result, and the cursor it leaves is again 0 or below the number of
breakpoints. This holds for every `std::sort` that meets the standard. -/
theorem cursor_index_safe (std : StdSort) (s : State) (hs : ReachableFromInitial std s) :
    (s.currentBreakpointIndex = 0 ∨ s.currentBreakpointIndex < s.breakpoints.length) ∧
    ∀ time : ℚ,
      getBreakpointValueChecked s time = some (getBreakpointValue s time) ∧
      ((getBreakpointValue s time).2.currentBreakpointIndex = 0 ∨
        (getBreakpointValue s time).2.currentBreakpointIndex
          < (getBreakpointValue s time).2.breakpoints.length) :=
  ⟨reachable_cursor_in_range std s hs, fun time =>
    ⟨getBreakpointValueChecked_eq s time,
      reachable_cursor_in_range std _ (ReachableFromInitial.lookup s time hs)⟩⟩

/-- C21, evaluated on the object built by `generateRampCurve (5, -1, 1)`,
`addBreakpoint (2, 0)` and a lookup at time 3: its cursor is below its 3 breakpoints, and a
lookup at time 7 reads in range. -/
theorem cursor_index_safe_witness :
    ((midPlayback sampleStdSort).currentBreakpointIndex = 0 ∨
      (midPlayback sampleStdSort).currentBreakpointIndex
        < (midPlayback sampleStdSort).breakpoints.length) ∧
    getBreakpointValueChecked (midPlayback sampleStdSort) 7
      = some (getBreakpointValue (midPlayback sampleStdSort) 7) :=
  have hr : ReachableFromInitial sampleStdSort (midPlayback sampleStdSort) :=
    ReachableFromInitial.lookup _ 3
      (ReachableFromInitial.add _ 2 0
        (ReachableFromInitial.ramp _ 5 (-1) 1 ReachableFromInitial.initial))
  ⟨(cursor_index_safe sampleStdSort (midPlayback sampleStdSort) hr).1,
    ((cursor_index_safe sampleStdSort (midPlayback sampleStdSort) hr).2 7).1⟩

end PanningProcessor
